import Mathlib

/-!
# Facette: graph template resolution and expansion

A shallow embedding of `src/facette/backend/item_graph.go` (the `Graph` item, its
`Resolve`/`Expand` state machine, the hook `BeforeSave` and `Series.IsValid`) and of
`src/cmd/facette/filter.go`, together with the library operations they call.

Conventions of the embedding.

* A Go `map[string]interface{}` (`maputil.Map`) is a finite map (`AList`); a field or
  argument of that type is an `Option`, `none` being the nil map.  Reading a nil map
  finds nothing.  The only writer of maps is `maputil.Map.Merge`, which is modelled
  from section 4.2 of the specification.
* A Go pointer (`*string`, `*Graph`, `*Backend`) is an `Option`, `none` being nil.
* The slices `[]*SeriesGroup` and `[]*Series` are lists of values: their pointers are
  taken to be non-nil and pairwise distinct.  Writing through such a pointer is an
  update of the list element.  A slice that holds a nil pointer, on which the loops of
  lines 87-88 would dereference nil, is outside the embedding.
* A method with a pointer receiver returns the receiver as the call leaves it, the
  returned `error` (`none` is Go's nil error) and the identifiers looked up in the
  storage, in order.
-/

namespace Facette

/-- The error values the code returns or propagates. -/
inductive Error where
  /-- `ErrUnresolvableItem` of package `backend`. -/
  | ErrUnresolvableItem
  /-- `ErrInvalidAlias` of package `backend`. -/
  | ErrInvalidAlias
  /-- The substitution met a placeholder whose attribute is absent. -/
  | UnresolvedAttribute (name : String)
  /-- Any error of the storage layer (`NotFound`, or another failure), by its message. -/
  | StoreError (msg : String)
  deriving DecidableEq

/-- A dynamic value (`interface{}`) as it occurs in attribute and option maps.  The
scalar kinds are modelled: `int` is a value of a Go integer type and `float` a
`float64`, here only at integral values.  The operations below read a value only to
test whether it is a string and to print it into a text. -/
inductive Value where
  | null
  | bool (b : Bool)
  | int (n : Int)
  | float (n : Int)
  | str (s : String)
  deriving DecidableEq

/-- The text a value is printed as when it is substituted for a placeholder. -/
def Value.render : Value → String
  | .null => "<nil>"
  | .bool true => "true"
  | .bool false => "false"
  | .int n => toString n
  | .float n => toString n
  | .str s => s

namespace maputil

/-- The type `maputil.Map`, a non-nil `map[string]interface{}`: a finite map holding
each key once. -/
abbrev Map := AList (fun _ : String => Value)

/-- Two maps are equal when their entries are; the test is by evaluation. -/
instance Map.decEq : DecidableEq Map := fun a b =>
  decidable_of_iff (a.entries = b.entries) AList.ext_iff.symm

/-- The expression `m[k]` with its presence flag: a nil map holds no key. -/
def Map.get (m : Option Map) (k : String) : Option Value :=
  match m with
  | none => none
  | some kvs => kvs.lookup k

/-- The builtin `len(m)`; the length of a nil map is zero. -/
def Map.len (m : Option Map) : Nat :=
  match m with
  | none => 0
  | some kvs => kvs.entries.length

/-- The assignment `m[k] = v` on a non-nil map. -/
def Map.set (m : Map) (k : String) (v : Value) : Map :=
  m.insert k v

/-- One iteration of the loop of `Merge`: the entry is written unless `overwrite` is
false and the key exists.  A nil destination receives the entry as an empty one
does. -/
def Map.mergeEntry (overwrite : Bool) (dst : Option Map) (kv : (_ : String) × Value) :
    Option Map :=
  if overwrite || (Map.get dst kv.1).isNone then some (Map.set (dst.getD ∅) kv.1 kv.2)
  else dst

/-- The loop of `Merge` over the entries of the source. -/
def Map.mergeEntries (overwrite : Bool) :
    Option Map → List ((_ : String) × Value) → Option Map
  | dst, [] => dst
  | dst, kv :: rest => Map.mergeEntries overwrite (Map.mergeEntry overwrite dst kv) rest

/-- Modelled from the spec: `maputil.Map.Merge` is a function of the library
`github.com/facette/maputil`, which is not among the sources.  Section 4.2 gives it as
"mutates `dst` in place, ... writing each `src` entry into `dst` unless
`overwrite=false` and the key already exists in `dst`.  Returns nothing; never fails."
The result is the destination after the call: every entry of the source is written,
whatever the destination was, so a nil destination ends holding the entries written
into it; a source without an entry leaves the destination as it was. -/
def Map.Merge (dst src : Option Map) (overwrite : Bool) : Option Map :=
  match src with
  | none => dst
  | some kvs => Map.mergeEntries overwrite dst kvs.entries

end maputil

open maputil

namespace template

/-- The scanner of `Expand`.  The first argument is `none` outside a placeholder and
holds the identifier read so far (reversed) inside one.  An opening token without a
closing one delimits no placeholder and is literal text. -/
def scan (attrs : Option Map) : Option (List Char) → List Char → Except Error (List Char)
  | none, [] => .ok []
  | none, '{' :: '{' :: rest => scan attrs (some []) rest
  | none, c :: rest =>
    match scan attrs none rest with
    | .ok out => .ok (c :: out)
    | .error e => .error e
  | some acc, [] => .ok ('{' :: '{' :: acc.reverse)
  | some acc, '}' :: '}' :: rest =>
    match Map.get attrs (String.mk acc.reverse) with
    | none => .error (Error.UnresolvedAttribute (String.mk acc.reverse))
    | some v =>
      match scan attrs none rest with
      | .ok out => .ok (v.render.data ++ out)
      | .error e => .error e
  | some acc, c :: rest => scan attrs (some (c :: acc)) rest

/-- Modelled from the spec: `template.Expand` of package `facette/template`, which is
not among the sources.  Section 4.3: it "scans `text` for placeholder markers delimited
by a fixed open/close token pair, extracts each enclosed identifier, looks it up in
`attrs`, and substitutes its string representation", fails with `UnresolvedAttribute`
when an identifier has no entry, and on failure "no partial output is returned": the
returned string is then empty.  The tokens are the `{{` and `}}` of the spec's
examples. -/
def Expand (text : String) (attrs : Option Map) : String × Option Error :=
  match scan attrs none text.data with
  | .ok out => (String.mk out, none)
  | .error e => ("", some e)

end template

namespace backend

/-- A back-end (`*Backend` when non-nil), known by a handle; its storage is the
`Storage` handed to the operations. -/
structure Backend where
  handle : Nat
  deriving DecidableEq

/-- The embedded `Item`, with the two fields `item_graph.go` refers to: the unexported
back-end pointer and the identifier. -/
structure Item where
  backend : Option Backend
  ID : String
  deriving DecidableEq

/-- The type `Series`. -/
structure Series where
  Name : String
  Origin : String
  Source : String
  Metric : String
  Options : Option Map
  deriving DecidableEq

/-- The type `SeriesGroup`. -/
structure SeriesGroup where
  Name : String
  Operator : Int
  Consolidate : Int
  Series : List Series
  Options : Option Map
  deriving DecidableEq

/-- The type `SeriesGroups`. -/
abbrev SeriesGroups := List SeriesGroup

/-- The type `Graph`. -/
structure Graph extends Item where
  Groups : SeriesGroups
  Link : Option Graph
  LinkID : Option String
  Attributes : Option Map
  Alias : Option String
  Options : Option Map
  Template : Bool
  resolved : Bool
  expanded : Bool

/-- The method `Backend.NewGraph`: every field but the back-end has its zero value. -/
def Backend.NewGraph (b : Backend) : Graph :=
  { backend := some b, ID := "", Groups := [], Link := none, LinkID := none,
    Attributes := none, Alias := none, Options := none, Template := false,
    resolved := false, expanded := false }

/-- The persisted columns of a graph, which a storage lookup reads. -/
structure GraphRow where
  ID : String
  Groups : SeriesGroups
  LinkID : Option String
  Attributes : Option Map
  Alias : Option String
  Options : Option Map
  Template : Bool
  deriving DecidableEq

/-- The storage behind a back-end, as the lookup `Get(field, value, dest)` sees it: the
row found for a field value, or the error of the lookup. -/
abbrev Storage := String → String → Except Error GraphRow

/-- The call `Storage().Get(field, value, dest)`: on success the columns of the row
are written into `dest`, whose other fields (the back-end, `Link` and the two flags)
stay as they are; on failure `dest` is left as it is. -/
def Storage.Get (st : Storage) (field value : String) (dest : Graph) : Graph × Option Error :=
  match st field value with
  | .ok row =>
    ({ dest with ID := row.ID, Groups := row.Groups, LinkID := row.LinkID,
                 Attributes := row.Attributes, Alias := row.Alias, Options := row.Options,
                 Template := row.Template }, none)
  | .error e => (dest, some e)

/-- What a returned call leaves: the receiver, the returned error and the identifiers
looked up in the storage. -/
structure Ret where
  g : Graph
  err : Option Error
  lookups : List String

/-- The outcome of a call: it returns, or the run aborts in a run-time panic. -/
inductive Outcome where
  | returned (r : Ret)
  | panicked

/-- The method `Graph.Resolve` (lines 107-124). -/
def Graph.Resolve (st : Storage) (g : Graph) : Ret :=
  if g.resolved then ⟨g, none, []⟩
  else
    match g.backend with
    | none => ⟨g, some Error.ErrUnresolvableItem, []⟩
    | some b =>
      match g.LinkID with
      | none => ⟨{ g with resolved := true }, none, []⟩
      | some id =>
        if id ≠ "" then
          match Storage.Get st "id" id b.NewGraph with
          | (link, some e) => ⟨{ g with Link := some link }, some e, [id]⟩
          | (link, none) => ⟨{ g with Link := some link, resolved := true }, none, [id]⟩
        else ⟨{ g with resolved := true }, none, []⟩

/-- Lines 89-96: the four substitutions on one series, `Name`, `Origin`, `Source`,
`Metric` in this order.  Each assignment stores the returned string before the error
is tested, and the first error ends the chain. -/
def Series.expand (attrs : Option Map) (s : Series) : Series × Option Error :=
  match template.Expand s.Name attrs with
  | (name, some e) => ({ s with Name := name }, some e)
  | (name, none) =>
    match template.Expand s.Origin attrs with
    | (origin, some e) => ({ s with Name := name, Origin := origin }, some e)
    | (origin, none) =>
      match template.Expand s.Source attrs with
      | (source, some e) => ({ s with Name := name, Origin := origin, Source := source }, some e)
      | (source, none) =>
        match template.Expand s.Metric attrs with
        | (metric, e) =>
          ({ s with Name := name, Origin := origin, Source := source, Metric := metric }, e)

/-- Lines 88-98: the loop over the series of one group; it stops at the first error
and leaves the series after it as they are. -/
def expandSeries (attrs : Option Map) : List Series → List Series × Option Error
  | [] => ([], none)
  | s :: rest =>
    match Series.expand attrs s with
    | (s', some e) => (s' :: rest, some e)
    | (s', none) =>
      match expandSeries attrs rest with
      | (rest', e) => (s' :: rest', e)

/-- Lines 87-99: the loop over the groups; it stops at the first error and leaves the
groups after it as they are. -/
def expandGroups (attrs : Option Map) : List SeriesGroup → List SeriesGroup × Option Error
  | [] => ([], none)
  | grp :: rest =>
    match expandSeries attrs grp.Series with
    | (ss, some e) => ({ grp with Series := ss } :: rest, some e)
    | (ss, none) =>
      match expandGroups attrs rest with
      | (rest', e) => ({ grp with Series := ss } :: rest', e)

/-- Lines 81-85: when `Options["title"]` holds a string it is substituted against the
attributes and the returned string is stored back, also when the substitution fails. -/
def Graph.expandTitle (g : Graph) : Graph × Option Error :=
  match Map.get g.Options "title" with
  | some (Value.str title) =>
    match template.Expand title g.Attributes with
    | (v, e) => ({ g with Options := g.Options.map fun m => Map.set m "title" (Value.str v) }, e)
  | _ => (g, none)

/-- The test of line 66 (and of line 114 for its last two conjuncts). -/
def Graph.linked (g : Graph) : Bool :=
  g.backend.isSome && (match g.LinkID with
    | none => false
    | some id => id ≠ "")

/-- Lines 66-79: a graph with a back-end and a non-empty `LinkID` is resolved, then the
template `g.Link` takes the identifier of the graph, has the attributes and options of
the graph merged into its own, loses its template mark, and is copied over the
receiver.  Dereferencing a nil `Link` is a panic. -/
def Graph.applyLink (st : Storage) (g : Graph) : Outcome :=
  if g.linked then
    match Graph.Resolve st g with
    | ⟨g1, some e, l⟩ => .returned ⟨g1, some e, l⟩
    | ⟨g1, none, l⟩ =>
      match g1.Link with
      | none => .panicked
      | some tmpl =>
        .returned ⟨{ tmpl with ID := g1.ID,
                               Attributes := Map.Merge tmpl.Attributes g1.Attributes true,
                               Options := Map.Merge tmpl.Options g1.Options true,
                               Template := false },
          none, l⟩
  else .returned ⟨g, none, []⟩

/-- Lines 81-103: the substitution of the title and of the series, and the mark set
when every substitution succeeded. -/
def Graph.substitute (g : Graph) : Graph × Option Error :=
  match g.expandTitle with
  | (g1, some e) => (g1, some e)
  | (g1, none) =>
    match expandGroups g1.Attributes g1.Groups with
    | (gs, some e) => ({ g1 with Groups := gs }, some e)
    | (gs, none) => ({ g1 with Groups := gs, expanded := true }, none)

/-- Lines 62-64: the attributes of the call are merged into those of the graph when
the call has any. -/
def Graph.mergeAttrs (g : Graph) (attrs : Option Map) : Option Map :=
  if Map.len attrs > 0 then Map.Merge g.Attributes attrs true else g.Attributes

/-- The method `Graph.Expand` (lines 55-104). -/
def Graph.Expand (st : Storage) (g : Graph) (attrs : Option Map) : Outcome :=
  if g.expanded then .returned ⟨g, none, []⟩
  else
    match Graph.applyLink st { g with Attributes := g.mergeAttrs attrs } with
    | .panicked => .panicked
    | .returned ⟨g1, some e, l⟩ => .returned ⟨g1, some e, l⟩
    | .returned ⟨g1, none, l⟩ => .returned ⟨g1.substitute.1, g1.substitute.2, l⟩

/-- The series whose four texts are each replaced by their substitution against the
attributes: what the chain of lines 89-96 leaves when no substitution fails. -/
def Series.substituted (attrs : Option Map) (s : Series) : Series :=
  { s with
    Name := (template.Expand s.Name attrs).1
    Origin := (template.Expand s.Origin attrs).1
    Source := (template.Expand s.Source attrs).1
    Metric := (template.Expand s.Metric attrs).1 }

/-- The group whose series are each substituted against the attributes. -/
def SeriesGroup.substituted (attrs : Option Map) (grp : SeriesGroup) : SeriesGroup :=
  { grp with Series := grp.Series.map (Series.substituted attrs) }

/-- The entry `title` of the options once the title substitution is done: a string is
replaced by its substitution against the attributes, another entry stays. -/
def substitutedTitle (options attrs : Option Map) : Option Value :=
  match Map.get options "title" with
  | some (Value.str title) => some (Value.str (template.Expand title attrs).1)
  | v => v

/-- The error of the first of the texts `Name`, `Origin`, `Source`, `Metric` of a
series whose substitution against the attributes fails, if any does. -/
def Series.firstError (attrs : Option Map) (s : Series) : Option Error :=
  (((template.Expand s.Name attrs).2.or (template.Expand s.Origin attrs).2).or
    (template.Expand s.Source attrs).2).or (template.Expand s.Metric attrs).2

/-- The error of the first substitution of a graph that fails, if any does, in the
order: the title when it is a string, then the groups in list order, the series of a
group in list order, and the four texts of a series. -/
def Graph.firstError (g : Graph) : Option Error :=
  (match Map.get g.Options "title" with
    | some (Value.str title) => (template.Expand title g.Attributes).2
    | _ => none).or
  ((g.Groups.map SeriesGroup.Series).flatten.findSome? (Series.firstError g.Attributes))

/-- The method `Series.IsValid` (lines 158-161). -/
def Series.IsValid (s : Series) : Bool :=
  s.Origin != "" && s.Source != "" && s.Metric != ""

/-! ### The hook `BeforeSave`

The ORM scope is represented by the columns that the hook sets through
`scope.SetColumn`, in order.  The hook of the embedded `Item` and the pattern
`nameRegexp` are declared elsewhere in the package and are arguments here. -/

/-- The ORM scope: the calls `SetColumn(name, value)` made so far, a nil value being
`none`. -/
structure Scope where
  columns : List (String × Option String)
  deriving DecidableEq

/-- The call `scope.SetColumn(name, value)`. -/
def Scope.SetColumn (scope : Scope) (name : String) (value : Option String) : Scope :=
  { columns := scope.columns ++ [(name, value)] }

/-- The method `Graph.BeforeSave` (lines 34-52).  `nameRegexp` is the test
`nameRegexp.MatchString` and `itemBeforeSave` the hook `g.Item.BeforeSave`. -/
def Graph.BeforeSave (nameRegexp : String → Bool) (itemBeforeSave : Scope → Scope × Option Error)
    (g : Graph) (scope : Scope) : Scope × Option Error :=
  match itemBeforeSave scope with
  | (sc, some err) => (sc, some err)
  | (sc, none) =>
    if (match g.Alias with
        | none => false
        | some a => !nameRegexp a) then (sc, some Error.ErrInvalidAlias)
    else
      let sc1 := if g.LinkID = some "" then sc.SetColumn "LinkID" none else sc
      let sc2 := if g.Alias = some "" then sc1.SetColumn "Alias" none else sc1
      (sc2, none)

/-! ### Sequences of calls -/

/-- A call of one of the two operations on a graph, with the storage behind the
back-end at the time of the call. -/
inductive Call where
  | Resolve (st : Storage)
  | Expand (st : Storage) (attrs : Option Map)

/-- The outcome of one call. -/
def Call.apply (c : Call) (g : Graph) : Outcome :=
  match c with
  | .Resolve st => .returned (Graph.Resolve st g)
  | .Expand st attrs => Graph.Expand st g attrs

/-- The receiver after a sequence of calls, each on what the one before left (whether
it returned an error or not); `none` when a call aborts in a panic. -/
def runCalls : List Call → Graph → Option Graph
  | [], g => some g
  | c :: rest, g =>
    match c.apply g with
    | .panicked => none
    | .returned r => runCalls rest r.g

/-- A freshly created graph: neither flag is set and `Link` is nil. -/
def Graph.fresh (g : Graph) : Prop :=
  g.resolved = false ∧ g.expanded = false ∧ g.Link = none

/-- The test of line 114: `LinkID` is set and not empty. -/
def Graph.hasLinkID (g : Graph) : Bool :=
  match g.LinkID with
  | none => false
  | some id => id ≠ ""

/-- The invariant of the states that `Resolve` and `Expand` reach from a fresh graph:
a resolved graph with a non-empty `LinkID` holds a link target, and a link target is a
new instance as `Resolve` fetched it, neither resolved nor linked further. -/
def Graph.linkSound (g : Graph) : Prop :=
  (g.resolved = true → g.hasLinkID = true → g.Link.isSome = true) ∧
  ∀ t, g.Link = some t → t.resolved = false ∧ t.Link = none

/-! ### Sample data

The end-to-end example of the specification, and small graphs for the other
operations. -/

namespace Sample

/-- A back-end. -/
def b : Backend := ⟨1⟩

/-- The stored template of the example: the title `{{env}} load` and one series of
origin `{{env}}`, source `cpu` and metric `usage`. -/
def templateRow : GraphRow :=
  { ID := "t"
    Groups := [{ Name := "load", Operator := 0, Consolidate := 0,
                 Series := [{ Name := "", Origin := "{{env}}", Source := "cpu",
                              Metric := "usage", Options := none }],
                 Options := none }]
    LinkID := none
    Attributes := some ∅
    Alias := none
    Options := some (AList.singleton "title" (Value.str "{{env}} load"))
    Template := true }

/-- A storage holding the template under the identifier `t` and nothing else. -/
def store : Storage := fun field value =>
  if field = "id" ∧ value = "t" then .ok templateRow else .error (Error.StoreError "not found")

/-- The instance of the example: linked to `t`, with the attribute `env` set to
`prod`. -/
def linked : Graph :=
  { b.NewGraph with
    ID := "i", LinkID := some "t", Attributes := some (AList.singleton "env" (Value.str "prod")) }

/-- The template as `Resolve` fetches it into `Link`. -/
def template : Graph :=
  { b.NewGraph with
    ID := "t", Groups := templateRow.Groups, Attributes := some ∅,
    Options := some (AList.singleton "title" (Value.str "{{env}} load")), Template := true }

/-- The instance after `Expand`. -/
def expanded : Graph :=
  { b.NewGraph with
    ID := "i"
    Groups := [{ Name := "load", Operator := 0, Consolidate := 0,
                 Series := [{ Name := "", Origin := "prod", Source := "cpu",
                              Metric := "usage", Options := none }],
                 Options := none }]
    Attributes := some (AList.singleton "env" (Value.str "prod"))
    Options := some (AList.singleton "title" (Value.str "prod load"))
    expanded := true }

/-- The instance of the example with a title of its own. -/
def titled : Graph :=
  { linked with Options := some (AList.singleton "title" (Value.str "mine")) }

/-- The instance with a title of its own, after `Expand`. -/
def titledExpanded : Graph :=
  { expanded with Options := some (AList.singleton "title" (Value.str "mine")) }

/-- A graph without a back-end, with a link identifier. -/
def detached : Graph :=
  { backend := none, ID := "d", Groups := [], Link := none, LinkID := some "t",
    Attributes := none, Alias := none, Options := none, Template := false,
    resolved := false, expanded := false }

/-- A graph linked to an identifier the storage does not hold. -/
def dangling : Graph :=
  { b.NewGraph with ID := "x", LinkID := some "missing" }

/-- A graph without a link, with the attribute `env`, whose first series names the
attribute `x`, which the graph does not have. -/
def unbound : Graph :=
  { backend := none, ID := "u"
    Groups := [{ Name := "g", Operator := 0, Consolidate := 0,
                 Series := [{ Name := "{{x}}", Origin := "o", Source := "s", Metric := "m",
                              Options := none },
                            { Name := "", Origin := "{{env}}", Source := "cpu",
                              Metric := "usage", Options := none }],
                 Options := none }]
    Link := none, LinkID := none
    Attributes := some (AList.singleton "env" (Value.str "prod"))
    Alias := none, Options := none, Template := false, resolved := false, expanded := false }

/-- The graph `unbound` with the name of its first series, and its attributes, and
its mark set as given. -/
def unboundWith (name origin : String) (attrs : Option Map) (mark : Bool) : Graph :=
  { unbound with
    Groups := [{ Name := "g", Operator := 0, Consolidate := 0,
                 Series := [{ Name := name, Origin := "o", Source := "s", Metric := "m",
                              Options := none },
                            { Name := "", Origin := origin, Source := "cpu",
                              Metric := "usage", Options := none }],
                 Options := none }]
    Attributes := attrs
    expanded := mark }

/-- The graph `unbound` after an `Expand` that failed on its first series. -/
def unboundFailed : Graph :=
  unboundWith "" "{{env}}" (some (AList.singleton "env" (Value.str "prod"))) false

/-- The attribute `x` that `unbound` misses. -/
def supplied : Option Map := some (AList.singleton "x" (Value.str "1"))

/-- The attributes of `unbound` with `x` added. -/
def completed : Option Map :=
  some ((AList.singleton "env" (Value.str "prod")).insert "x" (Value.str "1"))

/-- A graph without a link whose attribute `a` holds placeholder text, whose title
names `a` and whose series names the absent attribute `c`. -/
def nested : Graph :=
  { backend := none, ID := "n"
    Groups := [{ Name := "g", Operator := 0, Consolidate := 0,
                 Series := [{ Name := "{{c}}", Origin := "o", Source := "s", Metric := "m",
                              Options := none }],
                 Options := none }]
    Link := none, LinkID := none
    Attributes := some (AList.singleton "a" (Value.str "{{b}}"))
    Alias := none
    Options := some (AList.singleton "title" (Value.str "{{a}}"))
    Template := false, resolved := false, expanded := false }

/-- The attributes of `nested` with `c` added. -/
def nestedCompleted : Option Map :=
  some ((AList.singleton "a" (Value.str "{{b}}")).insert "c" (Value.str "x"))

/-- The graph `nested` with the title, the name of its series, its attributes and its
mark set as given. -/
def nestedWith (title name : String) (attrs : Option Map) (mark : Bool) : Graph :=
  { nested with
    Groups := [{ Name := "g", Operator := 0, Consolidate := 0,
                 Series := [{ Name := name, Origin := "o", Source := "s", Metric := "m",
                              Options := none }],
                 Options := none }]
    Attributes := attrs
    Options := some (AList.singleton "title" (Value.str title))
    expanded := mark }

/-- A name pattern for the examples: a non-empty string of letters and digits. -/
def nameRegexp (s : String) : Bool :=
  s != "" && s.data.all Char.isAlphanum

/-- A hook of the embedded item that succeeds and sets no column. -/
def itemOk (scope : Scope) : Scope × Option Error :=
  (scope, none)

/-- A graph whose alias and link identifier are both set to the empty string. -/
def emptyAlias : Graph :=
  { b.NewGraph with ID := "e", LinkID := some "", Alias := some "" }

/-- A graph with a valid alias and an empty link identifier. -/
def aliased : Graph :=
  { b.NewGraph with ID := "a", LinkID := some "", Alias := some "cpu1" }

/-- A graph with an empty link identifier and an alias that holds a blank. -/
def misnamed : Graph :=
  { b.NewGraph with ID := "m", LinkID := some "", Alias := some "bad alias" }

/-- The instance of the example after `Resolve`. -/
def resolved : Graph :=
  { linked with Link := some template, resolved := true }

/-- A resolved graph with a back-end and no link. -/
def plainResolved : Graph :=
  { b.NewGraph with ID := "p", Attributes := some ∅, resolved := true }

/-- The resolved graph without a link, once it is given the link identifier `t`: it is
marked resolved and its `Link` is nil. -/
def relinked : Graph :=
  { plainResolved with LinkID := some "t" }

/-- A stored template whose map of attributes is nil. -/
def bareRow : GraphRow :=
  { templateRow with Attributes := none }

/-- A storage holding the template without attributes under the identifier `t`. -/
def bareStore : Storage := fun field value =>
  if field = "id" ∧ value = "t" then .ok bareRow else .error (Error.StoreError "not found")

/-- A stored template whose map of options is nil. -/
def plainRow : GraphRow :=
  { templateRow with Options := none }

/-- A storage holding the template without options under the identifier `t`. -/
def plainStore : Storage := fun field value =>
  if field = "id" ∧ value = "t" then .ok plainRow else .error (Error.StoreError "not found")

/-- A stored template that is itself linked, to the identifier `base`. -/
def chainRow : GraphRow :=
  { templateRow with LinkID := some "base" }

/-- A storage holding the linked template under the identifier `t`, and nothing under
`base`. -/
def chainStore : Storage := fun field value =>
  if field = "id" ∧ value = "t" then .ok chainRow else .error (Error.StoreError "not found")

/-- The linked template as `Resolve` fetches it into `Link`. -/
def chainTemplate : Graph :=
  { template with LinkID := some "base" }

/-- The instance of the example after `Expand` over the linked template. -/
def chained : Graph :=
  { expanded with LinkID := some "base" }

/-- A stored template with attributes and options of its own: the attributes `env`,
`zone` and `region`, the title of the example and the option `unit`. -/
def layeredRow : GraphRow :=
  { templateRow with
    Attributes := some (((AList.singleton "env" (Value.str "base")).insert
      "zone" (Value.str "z")).insert "region" (Value.str "eu"))
    Options := some ((AList.singleton "title" (Value.str "{{env}} load")).insert
      "unit" (Value.str "%")) }

/-- A storage holding the template with attributes and options of its own under the
identifier `t`. -/
def layeredStore : Storage := fun field value =>
  if field = "id" ∧ value = "t" then .ok layeredRow else .error (Error.StoreError "not found")

/-- The template with attributes and options of its own, as `Resolve` fetches it. -/
def layeredTemplate : Graph :=
  { template with Attributes := layeredRow.Attributes, Options := layeredRow.Options }

/-- An instance linked to `t` with the attributes `env` and `zone` and the option
`unit`. -/
def layered : Graph :=
  { b.NewGraph with
    ID := "i", LinkID := some "t"
    Attributes := some ((AList.singleton "env" (Value.str "prod")).insert "zone" (Value.str "a"))
    Options := some (AList.singleton "unit" (Value.str "ms")) }

/-- The attribute `env` as a call supplies it. -/
def override : Option Map := some (AList.singleton "env" (Value.str "dev"))

/-- The instance `layered` after `Expand` with the attribute `env` of the call. -/
def layeredExpanded : Graph :=
  { b.NewGraph with
    ID := "i"
    Groups := [{ Name := "load", Operator := 0, Consolidate := 0,
                 Series := [{ Name := "", Origin := "dev", Source := "cpu",
                              Metric := "usage", Options := none }],
                 Options := none }]
    Attributes := some (((AList.singleton "region" (Value.str "eu")).insert
      "env" (Value.str "dev")).insert "zone" (Value.str "a"))
    Options := some ((AList.singleton "unit" (Value.str "ms")).insert
      "title" (Value.str "dev load"))
    expanded := true }

/-- A stored template whose own attributes resolve its placeholders. -/
def ownRow : GraphRow :=
  { templateRow with Attributes := some (AList.singleton "env" (Value.str "base")) }

/-- A storage holding the template with the attribute `env` under the identifier `t`. -/
def ownStore : Storage := fun field value =>
  if field = "id" ∧ value = "t" then .ok ownRow else .error (Error.StoreError "not found")

/-- The template with the attribute `env`, as `Resolve` fetches it. -/
def ownTemplate : Graph :=
  { template with Attributes := some (AList.singleton "env" (Value.str "base")) }

/-- The template with the attribute `env` after an `Expand` of its own. -/
def ownExpanded : Graph :=
  { ownTemplate with
    Groups := [{ Name := "load", Operator := 0, Consolidate := 0,
                 Series := [{ Name := "", Origin := "base", Source := "cpu",
                              Metric := "usage", Options := none }],
                 Options := none }]
    Options := some (AList.singleton "title" (Value.str "base load"))
    expanded := true }

/-- The instance of the example with a title that names the attribute `zone`, which
neither the instance nor the template has. -/
def zoned : Graph :=
  { linked with Options := some (AList.singleton "title" (Value.str "{{zone}}")) }

/-- The instance `zoned` after `Resolve`. -/
def zonedResolved : Graph :=
  { zoned with Link := some ownTemplate, resolved := true }

/-- The instance `zoned` after `Resolve`, once the template it holds in `Link` has been
expanded on its own. -/
def zonedHeld : Graph :=
  { zoned with Link := some ownExpanded, resolved := true }

/-- The instance `zonedHeld` after the `Expand` that fails on its title. -/
def zonedFailed : Graph :=
  { ownExpanded with
    ID := "i"
    Attributes := some (AList.singleton "env" (Value.str "prod"))
    Options := some (AList.singleton "title" (Value.str ""))
    Template := false }

/-- The attribute `zone` as a retry supplies it. -/
def zone : Option Map := some (AList.singleton "zone" (Value.str "a"))

end Sample

end backend

namespace strings

/-- The function `strings.HasPrefix`. -/
def HasPrefix (s pre : String) : Bool :=
  pre.data.isPrefixOf s.data

/-- The function `strings.TrimPrefix`: `s` without the leading `pre`, or `s` itself
when it does not start with `pre`. -/
def TrimPrefix (s pre : String) : String :=
  if HasPrefix s pre then String.mk (s.data.drop pre.data.length) else s

end strings

namespace cmd

/-- What `filterApplyModifier` returns as an `interface{}`: a value of type
`sqlstorage.GlobModifier`, one of type `sqlstorage.RegexpModifier`, or a plain
string. -/
inductive Modifier where
  | GlobModifier (pattern : String)
  | RegexpModifier (pattern : String)
  | text (s : String)
  deriving DecidableEq

/-- The function `filterApplyModifier` (`cmd/facette/filter.go`, lines 11-19).  The
constants `pattern.GlobPrefix` and `pattern.RegexpPrefix` are declared in a package
that is not among the sources and are arguments here. -/
def filterApplyModifier (GlobPrefix RegexpPrefix : String) (input : String) : Modifier :=
  if strings.HasPrefix input GlobPrefix then
    .GlobModifier (strings.TrimPrefix input GlobPrefix)
  else if strings.HasPrefix input RegexpPrefix then
    .RegexpModifier (strings.TrimPrefix input RegexpPrefix)
  else .text input

end cmd

end Facette

namespace Facette.backend

open maputil

/-! ## The latches of `Resolve` and `Expand` -/

/-- A successful `Expand` leaves the receiver marked expanded. -/
theorem Graph.Expand_ok_expanded (st : Storage) (g g' : Graph) (attrs : Option Map)
    (l : List String) (h : Graph.Expand st g attrs = .returned ⟨g', none, l⟩) :
    g'.expanded = true := by
  unfold Graph.Expand at h
  split at h
  · rename_i he
    cases h
    exact he
  · split at h
    · cases h
    · cases h
    · rename_i g1 l1 hl
      injection h with h
      injection h with hg herr hlk
      subst hg
      unfold Graph.substitute at herr ⊢
      split at herr
      · cases herr
      · split at herr
        · cases herr
        · rfl

/-- A successful `Resolve` leaves the receiver marked resolved. -/
theorem Graph.Resolve_ok_resolved (st : Storage) (g : Graph)
    (h : (Graph.Resolve st g).err = none) : (Graph.Resolve st g).g.resolved = true := by
  unfold Graph.Resolve at h ⊢
  split
  · assumption
  · split
    · simp_all
    · split
      · rfl
      · split
        · split
          · simp_all
          · rfl
        · rfl

/-- A call of `Resolve` looks up at most one identifier. -/
theorem Graph.Resolve_lookups_le (st : Storage) (g : Graph) :
    (Graph.Resolve st g).lookups.length ≤ 1 := by
  unfold Graph.Resolve
  repeat' split
  all_goals simp

/-- `Resolve` on a resolved graph returns at once. -/
theorem Graph.Resolve_of_resolved (st : Storage) (g : Graph) (h : g.resolved = true) :
    Graph.Resolve st g = ⟨g, none, []⟩ := by
  unfold Graph.Resolve
  simp [h]

/-- Claim C3.  `Expand` is an idempotent latch: once a call of `Expand` has returned
success, a later call, with any attributes and whatever the storage then holds,
returns success, looks nothing up and leaves the graph as it is. -/
theorem Graph.Expand_idempotent_latch (st st' : Storage) (g g' : Graph)
    (attrs attrs' : Option Map) (l : List String)
    (h : Graph.Expand st g attrs = .returned ⟨g', none, l⟩) :
    Graph.Expand st' g' attrs' = .returned ⟨g', none, []⟩ := by
  have he : g'.expanded = true := Graph.Expand_ok_expanded st g g' attrs l h
  unfold Graph.Expand
  simp [he]

/-- Claim C4.  `Resolve` is an idempotent latch: after a call of `Resolve` that
returned success, a second call returns success, looks nothing up and changes
nothing, so that the two calls together perform at most one lookup. -/
theorem Graph.Resolve_idempotent_latch (st st' : Storage) (g : Graph)
    (h : (Graph.Resolve st g).err = none) :
    Graph.Resolve st' (Graph.Resolve st g).g = ⟨(Graph.Resolve st g).g, none, []⟩ ∧
    (Graph.Resolve st g).lookups.length +
      (Graph.Resolve st' (Graph.Resolve st g).g).lookups.length ≤ 1 := by
  have hr : (Graph.Resolve st g).g.resolved = true := Graph.Resolve_ok_resolved st g h
  have h2 : Graph.Resolve st' (Graph.Resolve st g).g = ⟨(Graph.Resolve st g).g, none, []⟩ := by
    generalize (Graph.Resolve st g).g = g1 at hr
    unfold Graph.Resolve
    simp [hr]
  refine ⟨h2, ?_⟩
  rw [h2]
  simpa using Graph.Resolve_lookups_le st g

/-- Claim C5.  A graph that is not yet resolved and has no back-end fails to resolve
with `ErrUnresolvableItem`, whatever its `LinkID`, without a lookup, and is left as it
was: `Link` is not touched and `resolved` stays false. -/
theorem Graph.Resolve_detached (st : Storage) (g : Graph) (hr : g.resolved = false)
    (hb : g.backend = none) :
    Graph.Resolve st g = ⟨g, some Error.ErrUnresolvableItem, []⟩ := by
  unfold Graph.Resolve
  simp [hr, hb]

/-- Claim C6.  For a graph that is not yet resolved, with a back-end and a non-empty
`LinkID`: when the lookup by `id` succeeds, `Resolve` returns success, `Link` holds
the fetched graph (a new instance of the back-end filled with the row) and `resolved`
is true; when the lookup fails, `Resolve` returns the error of the storage, `resolved`
stays false and the next `Resolve` looks the identifier up again. -/
theorem Graph.Resolve_lookup (st : Storage) (g : Graph) (b : Backend) (id : String)
    (hr : g.resolved = false) (hb : g.backend = some b) (hid : g.LinkID = some id)
    (hne : id ≠ "") :
    match st "id" id with
    | .ok row =>
      Graph.Resolve st g =
        ⟨{ g with
            Link := some { b.NewGraph with
              ID := row.ID, Groups := row.Groups, LinkID := row.LinkID,
              Attributes := row.Attributes, Alias := row.Alias, Options := row.Options,
              Template := row.Template },
            resolved := true }, none, [id]⟩
    | .error e =>
      (Graph.Resolve st g).err = some e ∧ (Graph.Resolve st g).g.resolved = false ∧
      (Graph.Resolve st g).lookups = [id] ∧
      ∀ st' : Storage, (Graph.Resolve st' (Graph.Resolve st g).g).lookups = [id] := by
  split
  · rename_i row hrow
    unfold Graph.Resolve
    simp [hr, hb, hid, hne, Storage.Get, hrow]
  · rename_i e herr
    have h1 : Graph.Resolve st g = ⟨{ g with Link := some b.NewGraph }, some e, [id]⟩ := by
      unfold Graph.Resolve
      simp [hr, hb, hid, hne, Storage.Get, herr]
    rw [h1]
    refine ⟨rfl, hr, rfl, ?_⟩
    intro st'
    unfold Graph.Resolve
    simp only [hr, hb, hid]
    simp [hne]
    cases hget : Storage.Get st' "id" id b.NewGraph with
    | mk link err =>
      cases err <;> simp

/-- Claim C10.  A series is valid exactly when `Origin`, `Source` and `Metric` are all
non-empty; `Name` and `Options` have no influence.  The series with `Origin` empty,
`Source` "s" and `Metric` "m" is invalid; with `Origin` "o" it is valid. -/
theorem Series.IsValid_iff :
    (∀ s : Series, s.IsValid = true ↔ s.Origin ≠ "" ∧ s.Source ≠ "" ∧ s.Metric ≠ "") ∧
    (∀ (s : Series) (name : String) (options : Option Map),
      Series.IsValid { s with Name := name, Options := options } = s.IsValid) ∧
    Series.IsValid { Name := "", Origin := "", Source := "s", Metric := "m", Options := none }
      = false ∧
    Series.IsValid { Name := "", Origin := "o", Source := "s", Metric := "m", Options := none }
      = true := by
  refine ⟨?_, ?_, ?_, ?_⟩
  · intro s
    simp [Series.IsValid, and_assoc]
  · intro s name options
    rfl
  · decide
  · decide

end Facette.backend

namespace Facette.backend

open maputil

/-- The shape of a returned `Expand` on a graph that is not yet expanded. -/
theorem Graph.Expand_returned_inv (st : Storage) (g g' : Graph) (attrs : Option Map)
    (err : Option Error) (l : List String) (he : g.expanded = false)
    (h : Graph.Expand st g attrs = .returned ⟨g', err, l⟩) :
    ∃ a, g.mergeAttrs attrs = a ∧
      ((∃ e, Graph.applyLink st { g with Attributes := a } = .returned ⟨g', some e, l⟩ ∧
          err = some e) ∨
       ∃ g1, Graph.applyLink st { g with Attributes := a } = .returned ⟨g1, none, l⟩ ∧
          g' = g1.substitute.1 ∧ err = g1.substitute.2) := by
  unfold Graph.Expand at h
  rw [if_neg (by simp [he])] at h
  refine ⟨g.mergeAttrs attrs, rfl, ?_⟩
  split at h
  · cases h
  · rename_i g1 e l1 hl
    cases h
    exact Or.inl ⟨e, hl, rfl⟩
  · rename_i g1 l1 hl
    injection h with h
    injection h with hg herr hlk
    subst hlk
    exact Or.inr ⟨g1, hl, hg.symm, herr.symm⟩

end Facette.backend

namespace Facette.backend

open maputil

/-- `Resolve` does not read the attributes: on a graph with other attributes it does
the same, and leaves those attributes. -/
theorem Graph.Resolve_attributes (st : Storage) (g : Graph) (a : Option Map) :
    Graph.Resolve st { g with Attributes := a } =
      ⟨{ (Graph.Resolve st g).g with Attributes := a }, (Graph.Resolve st g).err,
        (Graph.Resolve st g).lookups⟩ := by
  obtain ⟨⟨bk, gid⟩, groups, link, linkID, at0, al, op, tp, rs, ex⟩ := g
  unfold Graph.Resolve
  cases rs
  · cases bk with
    | none => simp
    | some b =>
      cases linkID with
      | none => simp
      | some id =>
        by_cases hne : id = ""
        · simp [hne]
        · cases hget : Storage.Get st "id" id b.NewGraph with
          | mk lk err =>
            cases err <;> simp [hne, hget]
  · simp

/-- The title substitution changes nothing but the options. -/
theorem Graph.expandTitle_frame (g : Graph) :
    ∃ o, g.expandTitle.1 = { g with Options := o } := by
  obtain ⟨⟨bk, gid⟩, groups, link, linkID, at0, al, op, tp, rs, ex⟩ := g
  unfold Graph.expandTitle
  split
  · exact ⟨_, rfl⟩
  · exact ⟨_, rfl⟩

/-- The substitution stage changes nothing but the options, the groups and the
mark. -/
theorem Graph.substitute_frame (g : Graph) :
    ∃ o gs x, g.substitute.1 = { g with Options := o, Groups := gs, expanded := x } := by
  obtain ⟨o, ho⟩ := Graph.expandTitle_frame g
  obtain ⟨⟨bk, gid⟩, groups, link, linkID, at0, al, op, tp, rs, ex⟩ := g
  unfold Graph.substitute
  split
  · rename_i g1 e h1
    rw [h1] at ho
    exact ⟨o, groups, ex, ho⟩
  · rename_i g1 h1
    rw [h1] at ho
    simp only at ho
    subst ho
    split
    · exact ⟨_, _, _, rfl⟩
    · exact ⟨_, _, _, rfl⟩

/-- The substitution stage on a graph that is not marked expanded sets the mark
exactly when it returns no error. -/
theorem Graph.substitute_expanded_iff (g : Graph) (he : g.expanded = false) :
    g.substitute.1.expanded = true ↔ g.substitute.2 = none := by
  obtain ⟨o, ho⟩ := Graph.expandTitle_frame g
  unfold Graph.substitute
  split
  · rename_i g1 e h1
    rw [h1] at ho
    simp only at ho
    subst ho
    simp [he]
  · rename_i g1 h1
    rw [h1] at ho
    simp only at ho
    subst ho
    split
    · simp [he]
    · simp

end Facette.backend

namespace Facette.backend

open maputil

/-- `Resolve` leaves the mark `expanded` of the receiver. -/
theorem Graph.Resolve_expanded (st : Storage) (g : Graph) :
    (Graph.Resolve st g).g.expanded = g.expanded := by
  unfold Graph.Resolve
  repeat' split
  all_goals rfl

/-- After `Resolve` on a linked graph the link target is the one a resolved graph
already held, or a new instance filled from the storage; a new instance is not marked
expanded. -/
theorem Graph.Resolve_link_expanded (st : Storage) (g : Graph) (hl : g.linked = true)
    (hlink : g.resolved = true → ∀ t, g.Link = some t → t.expanded = false) :
    ∀ t, (Graph.Resolve st g).g.Link = some t → t.expanded = false := by
  intro t
  obtain ⟨⟨bk, gid⟩, groups, link, linkID, at0, al, op, tp, rs, ex⟩ := g
  unfold Graph.Resolve
  cases rs with
  | true => exact hlink rfl t
  | false =>
    cases bk with
    | none => simp [Graph.linked] at hl
    | some b =>
      cases linkID with
      | none => simp [Graph.linked] at hl
      | some id =>
        by_cases hne : id = ""
        · simp [Graph.linked, hne] at hl
        · simp only [Bool.false_eq_true, if_false, ne_eq, hne, not_false_eq_true, if_true]
          have hnew : (Storage.Get st "id" id b.NewGraph).1.expanded = false := by
            unfold Storage.Get
            split <;> rfl
          cases hget : Storage.Get st "id" id b.NewGraph with
          | mk lk err =>
            rw [hget] at hnew
            cases err with
            | none =>
              intro ht
              simp only [Option.some.injEq] at ht
              subst ht
              exact hnew
            | some e =>
              intro ht
              simp only [Option.some.injEq] at ht
              subst ht
              exact hnew

/-- The link stage leaves a graph that is not marked expanded, when neither the
receiver nor the link target that a resolved receiver holds is. -/
theorem Graph.applyLink_expanded (st : Storage) (g g1 : Graph) (err : Option Error)
    (l : List String) (he : g.expanded = false)
    (hlink : g.resolved = true → ∀ t, g.Link = some t → t.expanded = false)
    (h : Graph.applyLink st g = .returned ⟨g1, err, l⟩) : g1.expanded = false := by
  have h1 := Graph.Resolve_expanded st g
  unfold Graph.applyLink at h
  split at h
  · rename_i hlk
    have h2 := Graph.Resolve_link_expanded st g hlk hlink
    split at h
    · rename_i g2 e l2 hres
      cases h
      rw [hres] at h1
      simpa [he] using h1
    · rename_i g2 l2 hres
      rw [hres] at h2
      split at h
      · cases h
      · rename_i tmpl htmpl
        cases h
        exact h2 tmpl htmpl
  · cases h
    exact he

/-- The link stage of a linked graph returns the error of `Resolve` when it fails. -/
theorem Graph.applyLink_resolve_error (st : Storage) (g : Graph) (e : Error)
    (hl : g.linked = true) (hr : (Graph.Resolve st g).err = some e) :
    Graph.applyLink st g =
      .returned ⟨(Graph.Resolve st g).g, some e, (Graph.Resolve st g).lookups⟩ := by
  unfold Graph.applyLink
  rw [if_pos hl]
  cases hres : Graph.Resolve st g with
  | mk g2 err l2 =>
    rw [hres] at hr
    simp only at hr
    subst hr
    rfl

/-- An error of the link stage is the error of `Resolve` on a linked graph. -/
theorem Graph.applyLink_error_inv (st : Storage) (g g1 : Graph) (e : Error) (l : List String)
    (h : Graph.applyLink st g = .returned ⟨g1, some e, l⟩) :
    g.linked = true ∧ (Graph.Resolve st g).err = some e := by
  unfold Graph.applyLink at h
  split at h
  · rename_i hl
    refine ⟨hl, ?_⟩
    split at h
    · rename_i g2 e2 l2 hres
      cases h
      rw [hres]
    · split at h
      · cases h
      · cases h
  · cases h

/-- An error of the substitutions of one series is the error of substituting a text. -/
theorem Series.expand_error (attrs : Option Map) (s : Series) (e : Error)
    (h : (Series.expand attrs s).2 = some e) :
    ∃ text, (template.Expand text attrs).2 = some e := by
  unfold Series.expand at h
  split at h
  · rename_i name e1 h1
    simp only [Option.some.injEq] at h
    subst h
    exact ⟨s.Name, by rw [h1]⟩
  · split at h
    · rename_i origin e1 h1
      simp only [Option.some.injEq] at h
      subst h
      exact ⟨s.Origin, by rw [h1]⟩
    · split at h
      · rename_i source e1 h1
        simp only [Option.some.injEq] at h
        subst h
        exact ⟨s.Source, by rw [h1]⟩
      · exact ⟨s.Metric, h⟩

/-- An error of the loop over the series is the error of substituting a text. -/
theorem expandSeries_error (attrs : Option Map) (ss : List Series) (e : Error)
    (h : (expandSeries attrs ss).2 = some e) :
    ∃ text, (template.Expand text attrs).2 = some e := by
  induction ss with
  | nil => simp [expandSeries] at h
  | cons s rest ih =>
    unfold expandSeries at h
    split at h
    · rename_i s1 e1 h1
      simp only [Option.some.injEq] at h
      subst h
      exact Series.expand_error attrs s e1 (by rw [h1])
    · split at h
      rename_i rest1 e1 h1
      simp only at h
      subst h
      exact ih (by rw [h1])

/-- An error of the loop over the groups is the error of substituting a text. -/
theorem expandGroups_error (attrs : Option Map) (gs : List SeriesGroup) (e : Error)
    (h : (expandGroups attrs gs).2 = some e) :
    ∃ text, (template.Expand text attrs).2 = some e := by
  induction gs with
  | nil => simp [expandGroups] at h
  | cons grp rest ih =>
    unfold expandGroups at h
    split at h
    · rename_i ss e1 h1
      simp only [Option.some.injEq] at h
      subst h
      exact expandSeries_error attrs grp.Series e1 (by rw [h1])
    · split at h
      rename_i rest1 e1 h1
      simp only at h
      subst h
      exact ih (by rw [h1])

/-- The title substitution leaves the attributes and the groups. -/
theorem Graph.expandTitle_attributes (g : Graph) :
    g.expandTitle.1.Attributes = g.Attributes ∧ g.expandTitle.1.Groups = g.Groups := by
  obtain ⟨o, ho⟩ := Graph.expandTitle_frame g
  rw [ho]
  exact ⟨rfl, rfl⟩

/-- The substitution stage leaves the attributes. -/
theorem Graph.substitute_attributes (g : Graph) :
    g.substitute.1.Attributes = g.Attributes := by
  obtain ⟨o, gs, x, ho⟩ := Graph.substitute_frame g
  rw [ho]

/-- An error of the substitution stage is the error of substituting a text against
the attributes of the graph. -/
theorem Graph.substitute_error (g : Graph) (e : Error) (h : g.substitute.2 = some e) :
    ∃ text, (template.Expand text g.Attributes).2 = some e := by
  have ha := (Graph.expandTitle_attributes g).1
  unfold Graph.substitute at h
  split at h
  · rename_i g1 e1 h1
    simp only [Option.some.injEq] at h
    subst h
    unfold Graph.expandTitle at h1
    split at h1
    · rename_i title ht
      split at h1
      rename_i v e2 h2
      injection h1 with h3 h4
      exact ⟨title, by rw [h2, h4]⟩
    · cases h1
  · rename_i g1 h1
    rw [h1] at ha
    simp only at ha
    rw [← ha]
    split at h
    · rename_i gs e1 h2
      simp only [Option.some.injEq] at h
      subst h
      exact expandGroups_error _ _ e1 (by rw [h2])
    · cases h

end Facette.backend

namespace Facette.backend

open maputil

end Facette.backend

namespace Facette.maputil

/-- Writing an entry with `overwrite` set: the destination, taken as empty when it is
nil, receives the entry. -/
theorem Map.mergeEntry_overwrite (dst : Option Map) (kv : (_ : String) × Value) :
    Map.mergeEntry true dst kv = some (Map.set (dst.getD ∅) kv.1 kv.2) := by
  unfold Map.mergeEntry
  simp

/-- After the loop of `Merge` with `overwrite` set, a key holds the value of the
source when the source has it, and the value the destination had otherwise. -/
theorem Map.mergeEntries_get (l : List ((_ : String) × Value)) (hl : l.NodupKeys)
    (dst r : Option Map) (h : Map.mergeEntries true dst l = r) (k : String) :
    Map.get r k = (l.dlookup k).or (Map.get dst k) := by
  induction l generalizing dst with
  | nil =>
    simp only [Map.mergeEntries] at h
    subst h
    simp
  | cons kv rest ih =>
    obtain ⟨k0, v0⟩ := kv
    rw [List.nodupKeys_cons] at hl
    unfold Map.mergeEntries at h
    rw [Map.mergeEntry_overwrite] at h
    rw [ih hl.2 _ h]
    by_cases hk : k = k0
    · subst hk
      have : List.dlookup k rest = none := List.dlookup_eq_none.mpr hl.1
      simp [this, Map.get, Map.set]
    · rw [List.dlookup_cons_ne _ _ hk]
      cases dst with
      | none =>
        have hnot : AList.lookup k (AList.singleton k0 v0 : Map) = none := by
          have h2 : AList.lookup k (AList.insert k0 v0 (∅ : AList fun _ : String => Value))
              = none := by
            rw [AList.lookup_insert_ne hk]
            rfl
          simpa using h2
        simp [Map.get, Map.set, hnot]
      | some m => simp [Map.get, Map.set, AList.lookup_insert_ne hk]

/-- After `Merge` with `overwrite` set, a key holds the value of the source when the
source has it, and the value the destination had otherwise. -/
theorem Map.Merge_get (dst src r : Option Map) (h : Map.Merge dst src true = r)
    (k : String) : Map.get r k = (Map.get src k).or (Map.get dst k) := by
  unfold Map.Merge at h
  cases src with
  | none =>
    simp only at h
    subst h
    simp [Map.get]
  | some kvs =>
    simp only at h
    rw [Map.mergeEntries_get kvs.entries kvs.nodupKeys dst r h k]
    rfl

/-- A map of length zero holds no key. -/
theorem Map.get_of_len_zero (m : Option Map) (h : ¬ Map.len m > 0) (k : String) :
    Map.get m k = none := by
  cases m with
  | none => rfl
  | some kvs =>
    simp only [Map.len, gt_iff_lt, List.length_pos, ne_eq, not_not] at h
    simp [Map.get, AList.lookup, h]

end Facette.maputil

namespace Facette.backend

open maputil

/-- After the first step of `Expand` a key of the attributes holds the value of the
call when the call has it, and the value the graph had otherwise. -/
theorem Graph.mergeAttrs_get (g : Graph) (attrs a : Option Map)
    (h : g.mergeAttrs attrs = a) (k : String) :
    Map.get a k = (Map.get attrs k).or (Map.get g.Attributes k) := by
  unfold Graph.mergeAttrs at h
  split at h
  · exact Map.Merge_get _ _ _ h k
  · rename_i hlen
    subst h
    rw [Map.get_of_len_zero attrs hlen k]
    simp

/-- `Resolve` changes nothing but `Link` and `resolved`. -/
theorem Graph.Resolve_frame (st : Storage) (g : Graph) :
    ∃ lk rs, (Graph.Resolve st g).g = { g with Link := lk, resolved := rs } := by
  obtain ⟨⟨bk, gid⟩, groups, link, linkID, at0, al, op, tp, rs, ex⟩ := g
  unfold Graph.Resolve
  repeat' split
  all_goals exact ⟨_, _, rfl⟩

/-- The shape of a successful link stage on a linked graph. -/
theorem Graph.applyLink_linked_ok (st : Storage) (g g1 : Graph) (l : List String)
    (hl : g.linked = true) (h : Graph.applyLink st g = .returned ⟨g1, none, l⟩) :
    ∃ tmpl a o, (Graph.Resolve st g).err = none ∧ (Graph.Resolve st g).g.Link = some tmpl ∧
      Map.Merge tmpl.Attributes g.Attributes true = a ∧
      Map.Merge tmpl.Options g.Options true = o ∧
      g1 = { tmpl with ID := g.ID, Attributes := a, Options := o, Template := false } ∧
      l = (Graph.Resolve st g).lookups := by
  obtain ⟨lk, rs, hfr⟩ := Graph.Resolve_frame st g
  unfold Graph.applyLink at h
  rw [if_pos hl] at h
  split at h
  · cases h
  · rename_i g2 l2 hres
    rw [hres] at hfr
    simp only at hfr
    split at h
    · cases h
    · rename_i tmpl htmpl
      injection h with h
      injection h with h1 h2 h3
      rw [hres]
      refine ⟨tmpl, _, _, rfl, htmpl, rfl, rfl, ?_, h3.symm⟩
      rw [← h1, hfr]

/-- The link stage of a graph that is not linked does nothing. -/
theorem Graph.applyLink_not_linked (st : Storage) (g : Graph) (hl : g.linked = false) :
    Graph.applyLink st g = .returned ⟨g, none, []⟩ := by
  unfold Graph.applyLink
  simp [hl]

end Facette.backend

namespace Facette.backend

open maputil

/-- When the four substitutions of a series succeed, the series holds the four
substituted texts. -/
theorem Series.expand_ok (attrs : Option Map) (s : Series)
    (h : (Series.expand attrs s).2 = none) :
    (Series.expand attrs s).1 = Series.substituted attrs s := by
  unfold Series.expand at h ⊢
  unfold Series.substituted
  split at h
  · cases h
  · rename_i name h1
    split at h
    · cases h
    · rename_i origin h2
      split at h
      · cases h
      · rename_i source h3
        simp only [h1, h2, h3]

/-- When the loop over the series succeeds, every series is substituted. -/
theorem expandSeries_ok (attrs : Option Map) (ss : List Series)
    (h : (expandSeries attrs ss).2 = none) :
    (expandSeries attrs ss).1 = ss.map (Series.substituted attrs) := by
  induction ss with
  | nil => rfl
  | cons s rest ih =>
    unfold expandSeries at h ⊢
    cases h1 : Series.expand attrs s with
    | mk s1 e1 =>
      rw [h1] at h
      cases e1 with
      | some e => cases h
      | none =>
        simp only at h ⊢
        cases h2 : expandSeries attrs rest with
        | mk rest1 e2 =>
          rw [h2] at h ih
          simp only at h ih ⊢
          have hs := Series.expand_ok attrs s (by rw [h1])
          rw [h1] at hs
          simp only at hs
          rw [ih h, hs]
          rfl

/-- When the loop over the groups succeeds, every series of every group is
substituted. -/
theorem expandGroups_ok (attrs : Option Map) (gs : List SeriesGroup)
    (h : (expandGroups attrs gs).2 = none) :
    (expandGroups attrs gs).1 = gs.map (SeriesGroup.substituted attrs) := by
  induction gs with
  | nil => rfl
  | cons grp rest ih =>
    unfold expandGroups at h ⊢
    cases h1 : expandSeries attrs grp.Series with
    | mk ss e1 =>
      rw [h1] at h
      cases e1 with
      | some e => cases h
      | none =>
        simp only at h ⊢
        cases h2 : expandGroups attrs rest with
        | mk rest1 e2 =>
          rw [h2] at h ih
          simp only at h ih ⊢
          have hs := expandSeries_ok attrs grp.Series (by rw [h1])
          rw [h1] at hs
          simp only at hs
          rw [ih h, hs]
          rfl

/-- The substitution stage leaves the options as the title substitution left them. -/
theorem Graph.substitute_options (g : Graph) :
    g.substitute.1.Options = g.expandTitle.1.Options := by
  unfold Graph.substitute
  split
  · rename_i g1 e h1
    rw [h1]
  · rename_i g1 h1
    rw [h1]
    split <;> rfl

/-- A successful substitution stage leaves every group substituted and the mark
set. -/
theorem Graph.substitute_ok (g : Graph) (h : g.substitute.2 = none) :
    g.substitute.1 =
      { g with Options := g.expandTitle.1.Options,
               Groups := g.Groups.map (SeriesGroup.substituted g.Attributes),
               expanded := true } := by
  obtain ⟨o, ho⟩ := Graph.expandTitle_frame g
  obtain ⟨⟨bk, gid⟩, groups, link, linkID, at0, al, op, tp, rs, ex⟩ := g
  unfold Graph.substitute at h ⊢
  split at h
  · cases h
  · rename_i g1 h1
    rw [h1] at ho ⊢
    simp only at ho ⊢
    subst ho
    simp only at h ⊢
    split at h
    · cases h
    · rename_i gs h2
      have := expandGroups_ok at0 groups (by rw [h2])
      rw [h2] at this
      simp only at this
      rw [this]

/-- The title substitution leaves every option but the title. -/
theorem Graph.expandTitle_get (g : Graph) (k : String) (hk : k ≠ "title") :
    Map.get g.expandTitle.1.Options k = Map.get g.Options k := by
  unfold Graph.expandTitle
  split
  · rename_i title ht
    cases ho : g.Options with
    | none => rfl
    | some m => simp [Map.get, Map.set, AList.lookup_insert_ne hk]
  · rfl

/-- The title substitution stores the substituted text when the title is a string,
and leaves another title as it is. -/
theorem Graph.expandTitle_title (g : Graph) :
    Map.get g.expandTitle.1.Options "title" =
      match Map.get g.Options "title" with
      | some (Value.str title) => some (Value.str (template.Expand title g.Attributes).1)
      | v => v := by
  unfold Graph.expandTitle
  split
  · rename_i title ht
    cases ho : g.Options with
    | none => rw [ho] at ht; cases ht
    | some m => simp [Map.get, Map.set]
  · rename_i hnot
    rfl

end Facette.backend

namespace Facette.backend

open maputil

/-- The shape of a successful `Expand` on a linked graph that is not yet expanded:
the attributes of the call are merged into the graph, the link is resolved, the
attributes and options of the graph are merged into the template, and the template,
with the identifier of the graph and without its template mark, is substituted. -/
theorem Graph.Expand_linked_ok (st : Storage) (g g' : Graph) (attrs : Option Map)
    (l : List String) (he : g.expanded = false) (hl : g.linked = true)
    (h : Graph.Expand st g attrs = .returned ⟨g', none, l⟩) :
    ∃ a T a2 o2, g.mergeAttrs attrs = a ∧ (Graph.Resolve st g).err = none ∧
      (Graph.Resolve st g).g.Link = some T ∧ l = (Graph.Resolve st g).lookups ∧
      Map.Merge T.Attributes a true = a2 ∧
      Map.Merge T.Options g.Options true = o2 ∧
      Graph.substitute { T with ID := g.ID, Attributes := a2, Options := o2, Template := false }
        = (g', none) := by
  obtain ⟨a, ha, hcase⟩ := Graph.Expand_returned_inv st g g' attrs none l he h
  rcases hcase with ⟨e, _, herr⟩ | ⟨g1, hl1, hg, herr⟩
  · cases herr
  · have hres := Graph.Resolve_attributes st g a
    obtain ⟨T, a2, o2, h1, h2, h3, h4, h5, h6⟩ :=
      Graph.applyLink_linked_ok st { g with Attributes := a } g1 l hl hl1
    rw [hres] at h1 h2 h6
    simp only at h1 h2 h3 h4 h5 h6
    refine ⟨a, T, a2, o2, ha, h1, h2, h6, h3, h4, ?_⟩
    rw [← h5, hg, herr]

/-- Claim C2, amended.  On a linked graph that is not yet expanded, with `T` the template that
the resolution leaves in `Link`, a successful `Expand` leaves attributes that hold,
for each key, the value of the call if the call has the key, otherwise the value of
the graph if it has the key, otherwise the value of the template, so that the keys are
those of the three maps together.  The options before the title substitution hold,
for each key, the value of the graph if it has the key and the value of the template
otherwise; the title substitution leaves every other key. -/
theorem Graph.Expand_merge_order (st : Storage) (g g' T : Graph) (attrs : Option Map)
    (l : List String) (he : g.expanded = false) (hl : g.linked = true)
    (hT : (Graph.Resolve st g).g.Link = some T)
    (h : Graph.Expand st g attrs = .returned ⟨g', none, l⟩) :
    (∀ k, Map.get g'.Attributes k =
      ((Map.get attrs k).or (Map.get g.Attributes k)).or (Map.get T.Attributes k)) ∧
    (∀ k, (Map.get g'.Attributes k).isSome = true ↔
      (Map.get attrs k).isSome = true ∨ (Map.get g.Attributes k).isSome = true ∨
        (Map.get T.Attributes k).isSome = true) ∧
    (∃ g1 : Graph, g1.Attributes = g'.Attributes ∧
      (∀ k, Map.get g1.Options k = (Map.get g.Options k).or (Map.get T.Options k)) ∧
      g'.Options = g1.expandTitle.1.Options) ∧
    (∀ k, k ≠ "title" →
      Map.get g'.Options k = (Map.get g.Options k).or (Map.get T.Options k)) := by
  obtain ⟨a, T1, a2, o2, ha, _, hT1, _, ha2, ho2, hsub⟩ :=
    Graph.Expand_linked_ok st g g' attrs l he hl h
  rw [hT] at hT1
  injection hT1 with hT1
  subst hT1
  have hg' : g' = (Graph.substitute
      { T with ID := g.ID, Attributes := a2, Options := o2, Template := false }).1 := by
    rw [hsub]
  have hattr : g'.Attributes = a2 := by
    rw [hg', Graph.substitute_attributes]
  have hkey : ∀ k, Map.get g'.Attributes k =
      ((Map.get attrs k).or (Map.get g.Attributes k)).or (Map.get T.Attributes k) := by
    intro k
    rw [hattr, Map.Merge_get _ _ _ ha2 k, Graph.mergeAttrs_get g attrs a ha k]
  have hopt : g'.Options = (Graph.expandTitle
      { T with ID := g.ID, Attributes := a2, Options := o2, Template := false }).1.Options := by
    rw [hg', Graph.substitute_options]
  refine ⟨hkey, ?_, ?_, ?_⟩
  · intro k
    rw [hkey k]
    cases Map.get attrs k <;> cases Map.get g.Attributes k <;>
      cases Map.get T.Attributes k <;> simp
  · refine ⟨{ T with ID := g.ID, Attributes := a2, Options := o2, Template := false },
      hattr.symm, ?_, hopt⟩
    intro k
    exact Map.Merge_get _ _ _ ho2 k
  · intro k hk
    rw [hopt, Graph.expandTitle_get _ k hk]
    exact Map.Merge_get _ _ _ ho2 k

/-- Claim C1, amended.  On a graph with a back-end and a non-empty `LinkID`, not yet
expanded, with `T` the template that the resolution leaves in `Link`, a successful
`Expand` leaves the receiver equal to `T` with the identifier of the graph, the
template mark false, the merged attributes, the merged options with the title
substituted, every series of the groups of `T` substituted against the final
attributes, and the mark `expanded` set.  The title that is substituted is the one of
the merged options: the title of the graph when the graph has one, the title of `T`
otherwise.  Every other option is the one of the graph when the graph has the key and
the one of `T` otherwise, and an attribute is the one of the call, else of the graph,
else of `T`. -/
theorem Graph.Expand_becomes_template (st : Storage) (g g' T : Graph) (attrs : Option Map)
    (l : List String) (he : g.expanded = false) (hl : g.linked = true)
    (hT : (Graph.Resolve st g).g.Link = some T)
    (h : Graph.Expand st g attrs = .returned ⟨g', none, l⟩) :
    g' = { T with
            ID := g.ID, Template := false, Attributes := g'.Attributes,
            Options := g'.Options,
            Groups := T.Groups.map (SeriesGroup.substituted g'.Attributes),
            expanded := true } ∧
    Map.get g'.Options "title" =
      (match (Map.get g.Options "title").or (Map.get T.Options "title") with
       | some (Value.str title) => some (Value.str (template.Expand title g'.Attributes).1)
       | v => v) ∧
    (∀ k, k ≠ "title" →
      Map.get g'.Options k = (Map.get g.Options k).or (Map.get T.Options k)) ∧
    (∀ k, Map.get g'.Attributes k =
      ((Map.get attrs k).or (Map.get g.Attributes k)).or (Map.get T.Attributes k)) := by
  obtain ⟨a, T1, a2, o2, ha, _, hT1, _, ha2, ho2, hsub⟩ :=
    Graph.Expand_linked_ok st g g' attrs l he hl h
  rw [hT] at hT1
  injection hT1 with hT1
  subst hT1
  have hok := Graph.substitute_ok
    { T with ID := g.ID, Attributes := a2, Options := o2, Template := false } (by rw [hsub])
  rw [hsub] at hok
  simp only at hok
  have htitle := Graph.expandTitle_title
    { T with ID := g.ID, Attributes := a2, Options := o2, Template := false }
  simp only at htitle
  rw [Map.Merge_get _ _ _ ho2 "title"] at htitle
  refine ⟨?_, ?_, ?_, ?_⟩
  · rw [hok]
  · rw [hok]
    exact htitle
  · intro k hk
    rw [hok]
    simp only
    rw [Graph.expandTitle_get _ k hk]
    exact Map.Merge_get _ _ _ ho2 k
  · intro k
    rw [hok]
    simp only
    rw [Map.Merge_get _ _ _ ha2 k, Graph.mergeAttrs_get g attrs a ha k]

end Facette.backend

namespace Facette.template

open maputil

/-- The scanner reads the attributes only through their lookups. -/
theorem scan_congr (a b : Option Map) (h : ∀ k, Map.get a k = Map.get b k)
    (mode : Option (List Char)) (cs : List Char) : scan a mode cs = scan b mode cs := by
  induction mode, cs using scan.induct a <;> simp_all [scan]

/-- The substitution reads the attributes only through their lookups. -/
theorem Expand_congr (a b : Option Map) (h : ∀ k, Map.get a k = Map.get b k) (text : String) :
    Expand text a = Expand text b := by
  unfold Expand
  rw [scan_congr a b h]

end Facette.template

namespace Facette.backend

open maputil

/-- Substituting a series reads the attributes only through their lookups. -/
theorem Series.series_substituted_congr (a b : Option Map) (h : ∀ k, Map.get a k = Map.get b k) :
    Series.substituted a = Series.substituted b := by
  funext s
  unfold Series.substituted
  simp only [template.Expand_congr a b h]

/-- Substituting a group reads the attributes only through their lookups. -/
theorem SeriesGroup.group_substituted_congr (a b : Option Map)
    (h : ∀ k, Map.get a k = Map.get b k) :
    SeriesGroup.substituted a = SeriesGroup.substituted b := by
  funext grp
  unfold SeriesGroup.substituted
  rw [Series.series_substituted_congr a b h]

/-- When the loop over the series fails, the series before the failing one are
substituted and the series after it are as they were. -/
theorem expandSeries_error_shape (attrs : Option Map) (ss ss' : List Series) (e : Error)
    (h : expandSeries attrs ss = (ss', some e)) :
    ∃ pre s post, ss = pre ++ s :: post ∧ (Series.expand attrs s).2 = some e ∧
      ss' = pre.map (Series.substituted attrs) ++ (Series.expand attrs s).1 :: post := by
  induction ss generalizing ss' with
  | nil => simp [expandSeries] at h
  | cons s rest ih =>
    unfold expandSeries at h
    cases h1 : Series.expand attrs s with
    | mk s1 e1 =>
      rw [h1] at h
      cases e1 with
      | some e2 =>
        simp only [Prod.mk.injEq, Option.some.injEq] at h
        refine ⟨[], s, rest, rfl, ?_, ?_⟩
        · rw [h1, ← h.2]
        · rw [h1, ← h.1]
          rfl
      | none =>
        simp only at h
        cases h2 : expandSeries attrs rest with
        | mk rest1 e3 =>
          rw [h2] at h
          simp only [Prod.mk.injEq] at h
          obtain ⟨hss, he3⟩ := h
          subst he3
          obtain ⟨pre, s2, post, hrest, herr, hrest1⟩ := ih rest1 h2
          have hs := Series.expand_ok attrs s (by rw [h1])
          rw [h1] at hs
          simp only at hs
          refine ⟨s :: pre, s2, post, by rw [hrest]; rfl, herr, ?_⟩
          rw [← hss, hrest1, hs]
          rfl

/-- When the loop over the groups fails, the groups before the failing one are
substituted, the groups after it are as they were, and in the failing group the
series before the failing one are substituted and the series after it are as they
were. -/
theorem expandGroups_error_shape (attrs : Option Map) (gs gs' : List SeriesGroup) (e : Error)
    (h : expandGroups attrs gs = (gs', some e)) :
    ∃ gpre grp gpost pre s post, gs = gpre ++ grp :: gpost ∧ grp.Series = pre ++ s :: post ∧
      (Series.expand attrs s).2 = some e ∧
      gs' = gpre.map (SeriesGroup.substituted attrs) ++
        { grp with Series := pre.map (Series.substituted attrs) ++
            (Series.expand attrs s).1 :: post } :: gpost := by
  induction gs generalizing gs' with
  | nil => simp [expandGroups] at h
  | cons grp rest ih =>
    unfold expandGroups at h
    cases h1 : expandSeries attrs grp.Series with
    | mk ss1 e1 =>
      rw [h1] at h
      cases e1 with
      | some e2 =>
        simp only [Prod.mk.injEq, Option.some.injEq] at h
        obtain ⟨hgs, he⟩ := h
        subst he
        obtain ⟨pre, s, post, hser, herr, hss1⟩ := expandSeries_error_shape attrs _ _ _ h1
        refine ⟨[], grp, rest, pre, s, post, rfl, hser, herr, ?_⟩
        rw [← hgs, hss1]
        rfl
      | none =>
        simp only at h
        cases h2 : expandGroups attrs rest with
        | mk rest1 e3 =>
          rw [h2] at h
          simp only [Prod.mk.injEq] at h
          obtain ⟨hgs, he3⟩ := h
          subst he3
          obtain ⟨gpre, grp2, gpost, pre, s, post, hrest, hser, herr, hrest1⟩ := ih rest1 h2
          have hs := expandSeries_ok attrs grp.Series (by rw [h1])
          rw [h1] at hs
          simp only at hs
          refine ⟨grp :: gpre, grp2, gpost, pre, s, post, by rw [hrest]; rfl, hser, herr, ?_⟩
          rw [← hgs, hrest1, hs]
          rfl

/-- The link stage on two settings of the attributes: the graphs it leaves differ in
their attributes only, which hold the attributes given over a common base (nothing for
a graph without a link, the attributes of the template for a linked one). -/
theorem Graph.applyLink_attributes (st : Storage) (g s1 s2 : Graph) (a a' : Option Map)
    (l l' : List String)
    (h1 : Graph.applyLink st { g with Attributes := a } = .returned ⟨s1, none, l⟩)
    (h2 : Graph.applyLink st { g with Attributes := a' } = .returned ⟨s2, none, l'⟩) :
    s2 = { s1 with Attributes := s2.Attributes } ∧
    ∃ base : Option Map,
      (∀ k, Map.get s1.Attributes k = (Map.get a k).or (Map.get base k)) ∧
      (∀ k, Map.get s2.Attributes k = (Map.get a' k).or (Map.get base k)) := by
  cases hl : g.linked with
  | false =>
    have e1 := Graph.applyLink_not_linked st { g with Attributes := a } hl
    have e2 := Graph.applyLink_not_linked st { g with Attributes := a' } hl
    rw [e1] at h1
    rw [e2] at h2
    injection h1 with h1
    injection h1 with h1 _ _
    injection h2 with h2
    injection h2 with h2 _ _
    subst h1 h2
    refine ⟨rfl, none, ?_, ?_⟩ <;> intro k <;> simp [Map.get]
  | true =>
    obtain ⟨T, b2, o2, _, hT, hb2, ho2, hs1, _⟩ :=
      Graph.applyLink_linked_ok st { g with Attributes := a } s1 l hl h1
    obtain ⟨T', b2', o2', _, hT', hb2', ho2', hs2, _⟩ :=
      Graph.applyLink_linked_ok st { g with Attributes := a' } s2 l' hl h2
    rw [Graph.Resolve_attributes] at hT hT'
    simp only at hT hT' hb2 hb2' ho2 ho2' hs1 hs2
    rw [hT] at hT'
    injection hT' with hT'
    subst hT'
    rw [ho2] at ho2'
    subst ho2'
    refine ⟨?_, T.Attributes, ?_, ?_⟩
    · rw [hs2, hs1]
    · intro k
      rw [hs1]
      exact Map.Merge_get _ _ _ hb2 k
    · intro k
      rw [hs2]
      exact Map.Merge_get _ _ _ hb2' k

end Facette.backend

namespace Facette.backend

open maputil

/-- The title substitution leaves `substitutedTitle` under the key `title`. -/
theorem Graph.expandTitle_substitutedTitle (g : Graph) :
    Map.get g.expandTitle.1.Options "title" = substitutedTitle g.Options g.Attributes := by
  rw [Graph.expandTitle_title]
  rfl

/-- The title reads the attributes only through their lookups. -/
theorem substitutedTitle_congr (o a b : Option Map) (h : ∀ k, Map.get a k = Map.get b k) :
    substitutedTitle o a = substitutedTitle o b := by
  unfold substitutedTitle
  split
  · rw [template.Expand_congr a b h]
  · rfl

/-- The shape of a failed substitution stage: the title failed and the groups are as
they were, or the title is substituted and the loop over the groups failed. -/
theorem Graph.substitute_error_shape (g : Graph) (e : Error) (h : g.substitute.2 = some e) :
    (g.substitute.1.Groups = g.Groups ∧
      ∃ t, Map.get g.Options "title" = some (Value.str t) ∧
        (template.Expand t g.Attributes).2 = some e) ∨
    (Map.get g.substitute.1.Options "title" = substitutedTitle g.Options g.Attributes ∧
      ∃ gs, expandGroups g.Attributes g.Groups = (gs, some e) ∧ g.substitute.1.Groups = gs) := by
  have hfr := Graph.expandTitle_attributes g
  have htitle := Graph.expandTitle_substitutedTitle g
  unfold Graph.substitute at h ⊢
  split at h
  · rename_i g1 e1 h1
    simp only [Option.some.injEq] at h
    subst h
    left
    rw [h1] at hfr
    refine ⟨hfr.2, ?_⟩
    unfold Graph.expandTitle at h1
    split at h1
    · rename_i title ht
      split at h1
      rename_i v e2 h2
      injection h1 with h3 h4
      exact ⟨title, ht, by rw [h2, h4]⟩
    · cases h1
  · rename_i g1 h1
    right
    rw [h1] at hfr htitle
    simp only at hfr htitle h ⊢
    rw [hfr.1, hfr.2] at h ⊢
    split at h
    · rename_i gs e1 h2
      simp only [Option.some.injEq] at h
      subst h
      rw [h2]
      exact ⟨htitle, gs, rfl, rfl⟩
    · cases h

end Facette.backend

namespace Facette.backend

open maputil

/-- The error of the four substitutions of a series is the first one that fails. -/
theorem Series.expand_err (attrs : Option Map) (s : Series) :
    (Series.expand attrs s).2 = Series.firstError attrs s := by
  unfold Series.expand Series.firstError
  cases h1 : template.Expand s.Name attrs with
  | mk n e1 =>
    cases e1 with
    | some e => rfl
    | none =>
      cases h2 : template.Expand s.Origin attrs with
      | mk o e2 =>
        cases e2 with
        | some e => rfl
        | none =>
          cases h3 : template.Expand s.Source attrs with
          | mk c e3 =>
            cases e3 with
            | some e => rfl
            | none => rfl

/-- The error of the loop over the series is that of the first series with one. -/
theorem expandSeries_err (attrs : Option Map) (ss : List Series) :
    (expandSeries attrs ss).2 = ss.findSome? (Series.firstError attrs) := by
  induction ss with
  | nil => rfl
  | cons s rest ih =>
    have hs := Series.expand_err attrs s
    unfold expandSeries
    rw [List.findSome?_cons]
    cases h1 : Series.expand attrs s with
    | mk s1 e1 =>
      rw [h1] at hs
      simp only at hs
      rw [← hs]
      cases e1 with
      | some e => rfl
      | none =>
        simp only
        rw [← ih]

/-- The error of the loop over the groups is that of the first series with one, in the
order of the groups and of their series. -/
theorem expandGroups_err (attrs : Option Map) (gs : List SeriesGroup) :
    (expandGroups attrs gs).2 =
      (gs.map SeriesGroup.Series).flatten.findSome? (Series.firstError attrs) := by
  induction gs with
  | nil => rfl
  | cons grp rest ih =>
    have hs := expandSeries_err attrs grp.Series
    unfold expandGroups
    rw [List.map_cons, List.flatten_cons, List.findSome?_append, ← hs, ← ih]
    cases h1 : expandSeries attrs grp.Series with
    | mk ss e1 =>
      cases e1 with
      | some e => rfl
      | none => rfl

/-- The error of the title substitution is that of substituting the title when it is a
string, and there is none otherwise. -/
theorem Graph.expandTitle_err (g : Graph) :
    g.expandTitle.2 =
      match Map.get g.Options "title" with
      | some (Value.str title) => (template.Expand title g.Attributes).2
      | _ => none := by
  unfold Graph.expandTitle
  split <;> rfl

/-- The error of the substitution stage is that of the first substitution that
fails. -/
theorem Graph.substitute_err (g : Graph) : g.substitute.2 = g.firstError := by
  have hfr := Graph.expandTitle_attributes g
  have ht := Graph.expandTitle_err g
  unfold Graph.firstError
  rw [← ht, ← expandGroups_err]
  unfold Graph.substitute
  cases h1 : g.expandTitle with
  | mk g1 e1 =>
    rw [h1] at hfr
    simp only at hfr
    cases e1 with
    | some e => rfl
    | none =>
      simp only
      rw [hfr.1, hfr.2]
      cases h2 : expandGroups g.Attributes g.Groups with
      | mk gs e2 => cases e2 <;> rfl

end Facette.backend

namespace Facette.backend

open maputil

/-- Claim C8, amended.  Let `Expand` fail in a substitution on a graph that is not yet
expanded (neither the graph nor, when the graph is already resolved, the link target it
holds is marked; the link, if any, resolves), and leave a graph that has no link to
follow.
Then `expanded` stays false, and a second `Expand` that succeeds ends with attributes
that agree, key by key, with those of a single successful `Expand` with the combined
attributes on the original graph, and has substituted against them the strings that
the failed call left.  With `s0` the graph the substitutions of the single call start
from: when the title failed, the groups of the retry equal those of the single call;
when a series failed, the groups after the failing one and, in the failing group, the
series after the failing one equal those of the single call, while the title and the
series before the failing one are those of the failed call substituted once more.
What the failing substitution left in its own field is not described. -/
theorem Graph.Expand_retry (st : Storage) (g g1 g2 gS : Graph) (attrs1 attrs2 c : Option Map)
    (e : Error) (l1 l2 lS : List String) (he : g.expanded = false)
    (hlink : g.resolved = true → ∀ t, g.Link = some t → t.expanded = false)
    (hres : g.linked = true → (Graph.Resolve st g).err = none)
    (h1 : Graph.Expand st g attrs1 = .returned ⟨g1, some e, l1⟩)
    (hl1 : g1.linked = false)
    (hc : ∀ k, Map.get c k = (Map.get attrs2 k).or (Map.get attrs1 k))
    (h2 : Graph.Expand st g1 attrs2 = .returned ⟨g2, none, l2⟩)
    (hS : Graph.Expand st g c = .returned ⟨gS, none, lS⟩) :
    g1.expanded = false ∧ l2 = [] ∧
    (∀ k, Map.get g2.Attributes k = Map.get gS.Attributes k) ∧
    g2.Groups = g1.Groups.map (SeriesGroup.substituted gS.Attributes) ∧
    Map.get g2.Options "title" = substitutedTitle g1.Options gS.Attributes ∧
    ∃ s0 : Graph,
      gS.Groups = s0.Groups.map (SeriesGroup.substituted gS.Attributes) ∧
      Map.get gS.Options "title" = substitutedTitle s0.Options gS.Attributes ∧
      ((g1.Groups = s0.Groups ∧ g2.Groups = gS.Groups ∧
          ∃ t, Map.get s0.Options "title" = some (Value.str t) ∧
            (template.Expand t g1.Attributes).2 = some e) ∨
       (Map.get g1.Options "title" = substitutedTitle s0.Options g1.Attributes ∧
        ∃ gpre grp gpost pre s s' post,
          s0.Groups = gpre ++ grp :: gpost ∧ grp.Series = pre ++ s :: post ∧
          Series.firstError g1.Attributes s = some e ∧
          g1.Groups = gpre.map (SeriesGroup.substituted g1.Attributes) ++
            { grp with Series := pre.map (Series.substituted g1.Attributes) ++ s' :: post }
              :: gpost ∧
          gS.Groups = gpre.map (SeriesGroup.substituted gS.Attributes) ++
            { grp with Series := pre.map (Series.substituted gS.Attributes) ++
                Series.substituted gS.Attributes s ::
                post.map (Series.substituted gS.Attributes) }
              :: gpost.map (SeriesGroup.substituted gS.Attributes) ∧
          g2.Groups =
            (gpre.map (SeriesGroup.substituted g1.Attributes)).map
              (SeriesGroup.substituted gS.Attributes) ++
            { grp with Series := List.map (Series.substituted gS.Attributes)
                                    (pre.map (Series.substituted g1.Attributes)) ++
                                  Series.substituted gS.Attributes s' ::
                                  post.map (Series.substituted gS.Attributes) }
              :: gpost.map (SeriesGroup.substituted gS.Attributes))) := by
  -- the failed call
  obtain ⟨a1, ha1, hcase1⟩ := Graph.Expand_returned_inv st g g1 attrs1 (some e) l1 he h1
  rcases hcase1 with ⟨e', hl', _⟩ | ⟨s1, hls1, hg1, herr1⟩
  · have hinv := Graph.applyLink_error_inv st { g with Attributes := a1 } g1 e' l1 hl'
    rw [Graph.Resolve_attributes] at hinv
    have := hres hinv.1
    rw [this] at hinv
    exact absurd hinv.2 (by simp)
  have hs1e : s1.expanded = false :=
    Graph.applyLink_expanded st { g with Attributes := a1 } s1 none l1 he hlink hls1
  have hg1e : g1.expanded = false := by
    have hiff := Graph.substitute_expanded_iff s1 hs1e
    rw [← hg1, ← herr1] at hiff
    cases hx : g1.expanded with
    | false => rfl
    | true => exact absurd (hiff.mp hx) (by simp)
  have hA1 : g1.Attributes = s1.Attributes := by rw [hg1, Graph.substitute_attributes]
  -- the single call
  obtain ⟨aS, haS, hcaseS⟩ := Graph.Expand_returned_inv st g gS c none lS he hS
  rcases hcaseS with ⟨e', _, herr⟩ | ⟨sS, hlsS, hgS, herrS⟩
  · cases herr
  obtain ⟨hsS, base, hb1, hbS⟩ := Graph.applyLink_attributes st g s1 sS a1 aS l1 lS hls1 hlsS
  have hokS := Graph.substitute_ok sS herrS.symm
  have hAS : gS.Attributes = sS.Attributes := by rw [hgS, Graph.substitute_attributes]
  have hGS : sS.Groups = s1.Groups := by rw [hsS]
  have hOS : sS.Options = s1.Options := by rw [hsS]
  -- the retry
  obtain ⟨a2, ha2, hcase2⟩ := Graph.Expand_returned_inv st g1 g2 attrs2 none l2 hg1e h2
  rcases hcase2 with ⟨e', _, herr⟩ | ⟨s2, hls2, hg2, herr2⟩
  · cases herr
  rw [Graph.applyLink_not_linked st { g1 with Attributes := a2 } hl1] at hls2
  injection hls2 with hls2
  injection hls2 with hs2 _ hl2
  subst hs2
  have hok2 := Graph.substitute_ok { g1 with Attributes := a2 } herr2.symm
  have hA2 : g2.Attributes = a2 := by rw [hg2, Graph.substitute_attributes]
  -- the attributes agree
  have hattr : ∀ k, Map.get a2 k = Map.get gS.Attributes k := by
    intro k
    rw [Graph.mergeAttrs_get g1 attrs2 a2 ha2 k, hA1, hb1 k, Graph.mergeAttrs_get g attrs1 a1 ha1 k,
      hAS, hbS k, Graph.mergeAttrs_get g c aS haS k, hc k]
    cases Map.get attrs2 k <;> cases Map.get attrs1 k <;> cases Map.get g.Attributes k <;>
      cases Map.get base k <;> rfl
  have hG2 : g2.Groups = g1.Groups.map (SeriesGroup.substituted gS.Attributes) := by
    rw [hg2, hok2, ← SeriesGroup.group_substituted_congr a2 gS.Attributes hattr]
  have hT2 : Map.get g2.Options "title" = substitutedTitle g1.Options gS.Attributes := by
    rw [hg2, Graph.substitute_options, Graph.expandTitle_substitutedTitle,
      ← substitutedTitle_congr g1.Options a2 gS.Attributes hattr]
  have hGSm : gS.Groups = sS.Groups.map (SeriesGroup.substituted gS.Attributes) := by
    rw [hAS, hgS, hokS]
  have hTS : Map.get gS.Options "title" = substitutedTitle sS.Options gS.Attributes := by
    rw [hAS, hgS, Graph.substitute_options, Graph.expandTitle_substitutedTitle]
  refine ⟨hg1e, hl2.symm, ?_, hG2, hT2, sS, hGSm, hTS, ?_⟩
  · intro k
    rw [hA2]
    exact hattr k
  · rcases Graph.substitute_error_shape s1 e herr1.symm with ⟨hgr, t, ht, hte⟩ | ⟨htl, gs, hgs, hgr⟩
    · left
      rw [← hg1] at hgr
      refine ⟨by rw [hgr, hGS], ?_, t, by rw [hOS]; exact ht, by rw [hA1]; exact hte⟩
      rw [hG2, hGSm, hgr, hGS]
    · right
      rw [← hg1] at hgr htl
      obtain ⟨gpre, grp, gpost, pre, s, post, hsplit, hser, herr, hshape⟩ :=
        expandGroups_error_shape s1.Attributes s1.Groups gs e hgs
      refine ⟨by rw [htl, hOS, hA1], gpre, grp, gpost, pre, s,
        (Series.expand s1.Attributes s).1, post, by rw [hGS]; exact hsplit, hser,
        by rw [hA1, ← Series.expand_err]; exact herr, by rw [hgr, hA1]; exact hshape, ?_, ?_⟩
      · rw [hGSm, hGS, hsplit]
        simp [SeriesGroup.substituted, hser]
      · rw [hG2, hgr, hshape, hA1]
        simp [SeriesGroup.substituted]

end Facette.backend

namespace Facette.backend

open maputil

/-- Witness of C3: the example instance expands, and a later `Expand` with another
attribute, on a storage that has lost the template, leaves it as it is. -/
theorem Graph.Expand_idempotent_latch_witness :
    Graph.Expand Sample.store Sample.linked none = .returned ⟨Sample.expanded, none, ["t"]⟩ ∧
    Graph.Expand (fun _ _ => .error (Error.StoreError "gone")) Sample.expanded
        (some (AList.singleton "env" (Value.str "dev")))
      = .returned ⟨Sample.expanded, none, []⟩ :=
  ⟨rfl, Graph.Expand_idempotent_latch Sample.store _ Sample.linked Sample.expanded none _ ["t"] rfl⟩

/-- Witness of C4: the example instance resolves with one lookup, and resolving it
again looks nothing up. -/
theorem Graph.Resolve_idempotent_latch_witness :
    (Graph.Resolve Sample.store Sample.linked).err = none ∧
    (Graph.Resolve Sample.store (Graph.Resolve Sample.store Sample.linked).g =
        ⟨(Graph.Resolve Sample.store Sample.linked).g, none, []⟩ ∧
      (Graph.Resolve Sample.store Sample.linked).lookups.length +
        (Graph.Resolve Sample.store (Graph.Resolve Sample.store Sample.linked).g).lookups.length
          ≤ 1) :=
  ⟨rfl, Graph.Resolve_idempotent_latch Sample.store Sample.store Sample.linked rfl⟩

/-- Witness of C5: a graph without a back-end and with a non-empty `LinkID`. -/
theorem Graph.Resolve_detached_witness :
    Sample.detached.LinkID = some "t" ∧
    Graph.Resolve Sample.store Sample.detached =
      ⟨Sample.detached, some Error.ErrUnresolvableItem, []⟩ :=
  ⟨rfl, Graph.Resolve_detached Sample.store Sample.detached rfl rfl⟩

/-- Witness of C6: the example instance, whose template the storage holds, and a graph
linked to an identifier the storage does not hold. -/
theorem Graph.Resolve_lookup_witness :
    Graph.Resolve Sample.store Sample.linked =
      ⟨{ Sample.linked with Link := some Sample.template, resolved := true }, none, ["t"]⟩ ∧
    ((Graph.Resolve Sample.store Sample.dangling).err = some (Error.StoreError "not found") ∧
      (Graph.Resolve Sample.store Sample.dangling).g.resolved = false ∧
      (Graph.Resolve Sample.store Sample.dangling).lookups = ["missing"] ∧
      ∀ st' : Storage,
        (Graph.Resolve st' (Graph.Resolve Sample.store Sample.dangling).g).lookups = ["missing"]) :=
  ⟨Graph.Resolve_lookup Sample.store Sample.linked Sample.b "t" rfl rfl rfl (by decide),
   Graph.Resolve_lookup Sample.store Sample.dangling Sample.b "missing" rfl rfl rfl (by decide)⟩

/-- Counterexample to C2 as stated: the instance of the example, expanded over the
linked template, is a linked graph that is already expanded; a further `Expand` with
the attribute `env` succeeds at once and leaves `env` as it was. -/
theorem Graph.Expand_merge_order_refuted :
    Graph.Expand Sample.chainStore Sample.linked none =
      .returned ⟨Sample.chained, none, ["t"]⟩ ∧
    Graph.Expand Sample.chainStore Sample.chained Sample.override =
      .returned ⟨Sample.chained, none, []⟩ ∧
    ¬ ∀ (st : Storage) (g g' : Graph) (attrs : Option Map) (l : List String),
      g.linked = true → Graph.Expand st g attrs = .returned ⟨g', none, l⟩ →
      ∀ k v, Map.get attrs k = some v → Map.get g'.Attributes k = some v := by
  refine ⟨rfl, rfl, ?_⟩
  intro h
  have h1 := h Sample.chainStore Sample.chained Sample.chained Sample.override [] rfl rfl
    "env" (Value.str "dev") rfl
  revert h1
  decide

/-- Witness of C2, amended: an instance with the attributes `env` and `zone` and the
option `unit`, on a template with the attributes `env`, `zone` and `region` and the
options `title` and `unit`, expanded with the attribute `env`.  The call wins for
`env`, the instance for `zone` and `unit`, and `region` comes from the template. -/
theorem Graph.Expand_merge_order_witness :
    Graph.Expand Sample.layeredStore Sample.layered Sample.override =
      .returned ⟨Sample.layeredExpanded, none, ["t"]⟩ ∧
    (Graph.Resolve Sample.layeredStore Sample.layered).g.Link = some Sample.layeredTemplate ∧
    Map.get Sample.layeredExpanded.Attributes "env" = some (Value.str "dev") ∧
    Map.get Sample.layeredExpanded.Attributes "zone" = some (Value.str "a") ∧
    Map.get Sample.layeredExpanded.Attributes "region" = some (Value.str "eu") ∧
    Map.get Sample.layeredExpanded.Options "unit" = some (Value.str "ms") ∧
    (∀ k, Map.get Sample.layeredExpanded.Attributes k =
      ((Map.get Sample.override k).or (Map.get Sample.layered.Attributes k)).or
        (Map.get Sample.layeredTemplate.Attributes k)) ∧
    (∀ k, k ≠ "title" → Map.get Sample.layeredExpanded.Options k =
      (Map.get Sample.layered.Options k).or (Map.get Sample.layeredTemplate.Options k)) :=
  have hw := Graph.Expand_merge_order Sample.layeredStore Sample.layered Sample.layeredExpanded
    Sample.layeredTemplate Sample.override ["t"] rfl rfl rfl rfl
  ⟨rfl, rfl, by decide, by decide, by decide, by decide, hw.1, hw.2.2.2⟩

/-- Counterexample to C1 as stated: the instance of the example with a title of its
own expands to that title, not to the substitution of the title stored in the
template. -/
theorem Graph.Expand_title_of_template_refuted :
    ¬ ∀ (st : Storage) (g g' T : Graph) (attrs : Option Map) (l : List String) (title : String),
      g.expanded = false → g.linked = true → (Graph.Resolve st g).g.Link = some T →
      Graph.Expand st g attrs = .returned ⟨g', none, l⟩ →
      Map.get T.Options "title" = some (Value.str title) →
      Map.get g'.Options "title" =
        some (Value.str (template.Expand title g'.Attributes).1) := by
  intro h
  have h1 := h Sample.store Sample.titled Sample.titledExpanded Sample.template none ["t"]
    "{{env}} load" rfl rfl rfl rfl rfl
  revert h1
  decide

/-- Witness of C1, amended: the example of the specification.  The instance with the
attribute `env` set to `prod` gets the title `prod load` and the origin `prod`. -/
theorem Graph.Expand_becomes_template_witness :
    Graph.Expand Sample.store Sample.linked none = .returned ⟨Sample.expanded, none, ["t"]⟩ ∧
    Map.get Sample.expanded.Options "title" = some (Value.str "prod load") ∧
    Sample.expanded.Groups.map (fun grp => grp.Series.map fun s => s.Origin) = [["prod"]] ∧
    Sample.expanded =
      { Sample.template with
        ID := Sample.linked.ID, Template := false, Attributes := Sample.expanded.Attributes,
        Options := Sample.expanded.Options,
        Groups := Sample.template.Groups.map
          (SeriesGroup.substituted Sample.expanded.Attributes),
        expanded := true } :=
  ⟨rfl, by decide, by decide,
   (Graph.Expand_becomes_template Sample.store Sample.linked Sample.expanded Sample.template none
    ["t"] rfl rfl rfl rfl).1⟩

end Facette.backend

namespace Facette.backend

open maputil

/-- Counterexample to C8 as stated.  First: the failed `Expand` stores the empty string
in the failing name, so the retry that supplies `x` succeeds with an empty name where
a single `Expand` gives `1`.  Second: the failed `Expand` has substituted the title
into placeholder text, so the retry that supplies the missing `c` fails on `b` where a
single `Expand` succeeds.  Third: on the resolved instance whose template in `Link` is
already expanded, the failed `Expand` leaves `expanded` true, so the retry that supplies
`zone` returns at once and merges nothing. -/
theorem Graph.Expand_retry_refuted :
    (¬ ∀ (st : Storage) (g g1 g2 gS : Graph) (attrs2 : Option Map) (name : String)
        (l1 l2 lS : List String),
      g.expanded = false →
      Graph.Expand st g none = .returned ⟨g1, some (Error.UnresolvedAttribute name), l1⟩ →
      (Map.get attrs2 name).isSome = true →
      Graph.Expand st g1 attrs2 = .returned ⟨g2, none, l2⟩ →
      Graph.Expand st g attrs2 = .returned ⟨gS, none, lS⟩ →
      g2.Groups = gS.Groups) ∧
    (¬ ∀ (st : Storage) (g g1 gS : Graph) (attrs2 : Option Map) (name : String)
        (l1 lS : List String),
      g.expanded = false →
      Graph.Expand st g none = .returned ⟨g1, some (Error.UnresolvedAttribute name), l1⟩ →
      (Map.get attrs2 name).isSome = true →
      Graph.Expand st g attrs2 = .returned ⟨gS, none, lS⟩ →
      ∃ g2 l2, Graph.Expand st g1 attrs2 = .returned ⟨g2, none, l2⟩) ∧
    (Sample.zonedHeld.expanded = false ∧
      Graph.Expand Sample.ownStore Sample.zonedHeld none =
        .returned ⟨Sample.zonedFailed, some (Error.UnresolvedAttribute "zone"), []⟩ ∧
      Sample.zonedFailed.expanded = true ∧
      Graph.Expand Sample.ownStore Sample.zonedFailed Sample.zone =
        .returned ⟨Sample.zonedFailed, none, []⟩ ∧
      Map.get Sample.zonedFailed.Attributes "zone" = none) := by
  refine ⟨?_, ?_, rfl, rfl, rfl, rfl, rfl⟩
  · intro h
    have h1 := h Sample.store Sample.unbound Sample.unboundFailed
      (Sample.unboundWith "" "prod" Sample.completed true)
      (Sample.unboundWith "1" "prod" Sample.completed true)
      Sample.supplied "x" [] [] [] rfl rfl rfl rfl rfl
    revert h1
    decide
  · intro h
    obtain ⟨g2, l2, h2⟩ := h Sample.store Sample.nested
      (Sample.nestedWith "{{b}}" "" Sample.nested.Attributes false)
      (Sample.nestedWith "{{b}}" "x" Sample.nestedCompleted true)
      (some (AList.singleton "c" (Value.str "x"))) "c" [] [] rfl rfl rfl rfl
    have h3 : Graph.Expand Sample.store
        (Sample.nestedWith "{{b}}" "" Sample.nested.Attributes false)
        (some (AList.singleton "c" (Value.str "x"))) =
        .returned ⟨Sample.nestedWith "" "" Sample.nestedCompleted false,
          some (Error.UnresolvedAttribute "b"), []⟩ := rfl
    rw [h3] at h2
    injection h2 with h2
    injection h2 with _ h4 _
    cases h4

/-- Witness of C8, amended: the graph whose first series names the absent `x`.  After
the failed call, the retry that supplies `x` substitutes the second series as a single
`Expand` does. -/
theorem Graph.Expand_retry_witness :
    Graph.Expand Sample.store Sample.unbound none =
      .returned ⟨Sample.unboundFailed, some (Error.UnresolvedAttribute "x"), []⟩ ∧
    Graph.Expand Sample.store Sample.unboundFailed Sample.supplied =
      .returned ⟨Sample.unboundWith "" "prod" Sample.completed true, none, []⟩ ∧
    Graph.Expand Sample.store Sample.unbound Sample.supplied =
      .returned ⟨Sample.unboundWith "1" "prod" Sample.completed true, none, []⟩ ∧
    (Sample.unboundWith "" "prod" Sample.completed true).Groups =
      Sample.unboundFailed.Groups.map
        (SeriesGroup.substituted (Sample.unboundWith "1" "prod" Sample.completed true).Attributes) :=
  ⟨rfl, rfl, rfl,
   (Graph.Expand_retry Sample.store Sample.unbound Sample.unboundFailed
      (Sample.unboundWith "" "prod" Sample.completed true)
      (Sample.unboundWith "1" "prod" Sample.completed true)
      none Sample.supplied Sample.supplied (Error.UnresolvedAttribute "x") [] [] []
      rfl (fun h => nomatch h) (fun h => nomatch h) rfl rfl
      (fun k => by cases Map.get Sample.supplied k <;> rfl) rfl rfl).2.2.2.1⟩

end Facette.backend

namespace Facette.strings

/-- A string starts with `pre` exactly when it is `pre` followed by some text. -/
theorem HasPrefix_iff (s pre : String) : HasPrefix s pre = true ↔ ∃ p : String, s = pre ++ p := by
  unfold HasPrefix
  rw [List.isPrefixOf_iff_prefix]
  constructor
  · rintro ⟨t, ht⟩
    refine ⟨String.mk t, ?_⟩
    apply String.ext
    rw [String.data_append, ← ht]
  · rintro ⟨p, hp⟩
    refine ⟨p.data, ?_⟩
    rw [hp, String.data_append]

/-- Trimming `pre` from `pre` followed by `p` leaves `p`: one leading occurrence is
removed and no more. -/
theorem TrimPrefix_append (pre p : String) : TrimPrefix (pre ++ p) pre = p := by
  have h : HasPrefix (pre ++ p) pre = true := (HasPrefix_iff _ _).mpr ⟨p, rfl⟩
  unfold TrimPrefix
  rw [if_pos h]
  apply String.ext
  simp [String.data_append]

end Facette.strings

namespace Facette.cmd

/-- Claim C11.  For every input and whatever the two prefixes are: an input that is
the glob prefix followed by `p` gives a glob matcher of payload `p` (one leading
prefix is removed, no more); otherwise an input that is the regexp prefix followed by
`p` gives a regexp matcher of payload `p`; otherwise the input itself comes back
unchanged.  In particular the glob prefix followed by any `p` is a glob matcher of
payload `p`. -/
theorem filterApplyModifier_classifies (GlobPrefix RegexpPrefix input : String) :
    (∀ p, input = GlobPrefix ++ p →
      filterApplyModifier GlobPrefix RegexpPrefix input = .GlobModifier p) ∧
    ((¬ ∃ p, input = GlobPrefix ++ p) → ∀ p, input = RegexpPrefix ++ p →
      filterApplyModifier GlobPrefix RegexpPrefix input = .RegexpModifier p) ∧
    ((¬ ∃ p, input = GlobPrefix ++ p) → (¬ ∃ p, input = RegexpPrefix ++ p) →
      filterApplyModifier GlobPrefix RegexpPrefix input = .text input) ∧
    (∀ p, filterApplyModifier GlobPrefix RegexpPrefix (GlobPrefix ++ p) = .GlobModifier p) := by
  have hglob : ∀ p, filterApplyModifier GlobPrefix RegexpPrefix (GlobPrefix ++ p)
      = .GlobModifier p := by
    intro p
    unfold filterApplyModifier
    rw [if_pos ((strings.HasPrefix_iff _ _).mpr ⟨p, rfl⟩), strings.TrimPrefix_append]
  refine ⟨?_, ?_, ?_, hglob⟩
  · intro p hp
    rw [hp]
    exact hglob p
  · intro hg p hp
    have h1 : strings.HasPrefix input GlobPrefix = false := by
      cases h : strings.HasPrefix input GlobPrefix with
      | false => rfl
      | true => exact absurd ((strings.HasPrefix_iff _ _).mp h) hg
    unfold filterApplyModifier
    rw [h1, hp]
    simp only [Bool.false_eq_true, if_false]
    rw [if_pos ((strings.HasPrefix_iff _ _).mpr ⟨p, rfl⟩), strings.TrimPrefix_append]
  · intro hg hr
    have h1 : strings.HasPrefix input GlobPrefix = false := by
      cases h : strings.HasPrefix input GlobPrefix with
      | false => rfl
      | true => exact absurd ((strings.HasPrefix_iff _ _).mp h) hg
    have h2 : strings.HasPrefix input RegexpPrefix = false := by
      cases h : strings.HasPrefix input RegexpPrefix with
      | false => rfl
      | true => exact absurd ((strings.HasPrefix_iff _ _).mp h) hr
    unfold filterApplyModifier
    simp [h1, h2]

end Facette.cmd

namespace Facette.backend

open maputil

/-- Claim C18.  A graph that is not yet resolved, has a back-end and has a `LinkID`
that is nil or empty resolves with success and without a lookup: `resolved` becomes
true, `Link` and every other field stay as they are. -/
theorem Graph.Resolve_without_link (st : Storage) (g : Graph) (b : Backend)
    (hr : g.resolved = false) (hb : g.backend = some b) (hid : g.hasLinkID = false) :
    Graph.Resolve st g = ⟨{ g with resolved := true }, none, []⟩ := by
  obtain ⟨⟨bk, gid⟩, groups, link, linkID, at0, al, op, tp, rs, ex⟩ := g
  simp only at hr hb
  subst hr hb
  unfold Graph.Resolve
  cases linkID with
  | none => rfl
  | some id =>
    have : id = "" := by simpa [Graph.hasLinkID] using hid
    subst this
    simp

end Facette.backend

namespace Facette.backend

open maputil

/-- Claim C12, on the code.  When the hook of the embedded item succeeds,
`BeforeSave` fails with `ErrInvalidAlias` exactly when `Alias` is set and does not
match the name pattern, whether it is empty or not: a graph whose `Alias` is set to
the empty string is rejected by a pattern that does not match the empty string, and
no column is set. -/
theorem Graph.BeforeSave_alias (nameRegexp : String → Bool)
    (itemBeforeSave : Scope → Scope × Option Error) (g : Graph) (scope sc : Scope)
    (hitem : itemBeforeSave scope = (sc, none)) :
    ((Graph.BeforeSave nameRegexp itemBeforeSave g scope).2 = some Error.ErrInvalidAlias ↔
      ∃ a, g.Alias = some a ∧ nameRegexp a = false) ∧
    (g.Alias = some "" → nameRegexp "" = false →
      Graph.BeforeSave nameRegexp itemBeforeSave g scope = (sc, some Error.ErrInvalidAlias)) := by
  unfold Graph.BeforeSave
  rw [hitem]
  simp only
  constructor
  · cases ha : g.Alias with
    | none => simp
    | some a =>
      cases hm : nameRegexp a <;> simp [hm]
  · intro ha hm
    rw [ha]
    simp [hm]

/-- Witness of C12: the graph whose alias is the empty string, under a pattern of
letters and digits. -/
theorem Graph.BeforeSave_alias_witness :
    Graph.BeforeSave Sample.nameRegexp Sample.itemOk Sample.emptyAlias ⟨[]⟩ =
      (⟨[]⟩, some Error.ErrInvalidAlias) :=
  (Graph.BeforeSave_alias Sample.nameRegexp Sample.itemOk Sample.emptyAlias ⟨[]⟩ ⟨[]⟩ rfl).2
    rfl (by decide)

/-- Claim C13, amended.  When the hook of the embedded item succeeds and the alias, if
set, matches the name pattern, `BeforeSave` succeeds and sets the column `LinkID` to
null exactly when `LinkID` is set to the empty string, then the column `Alias` to null
exactly when `Alias` is set to the empty string, and no other column.  When the alias
is set to a non-empty string that does not match the pattern, `BeforeSave` returns
`ErrInvalidAlias` and sets no column, whatever `LinkID` is. -/
theorem Graph.BeforeSave_columns (nameRegexp : String → Bool)
    (itemBeforeSave : Scope → Scope × Option Error) (g : Graph) (scope sc : Scope)
    (hitem : itemBeforeSave scope = (sc, none)) :
    ((∀ a, g.Alias = some a → nameRegexp a = true) →
      Graph.BeforeSave nameRegexp itemBeforeSave g scope =
        (⟨sc.columns ++ (if g.LinkID = some "" then [("LinkID", none)] else []) ++
            (if g.Alias = some "" then [("Alias", none)] else [])⟩, none)) ∧
    (∀ a, g.Alias = some a → a ≠ "" → nameRegexp a = false →
      Graph.BeforeSave nameRegexp itemBeforeSave g scope = (sc, some Error.ErrInvalidAlias)) := by
  unfold Graph.BeforeSave
  rw [hitem]
  simp only
  constructor
  · intro hok
    have hcheck : (match g.Alias with
        | none => false
        | some a => !nameRegexp a) = false := by
      cases ha : g.Alias with
      | none => rfl
      | some a => simp [hok a ha]
    rw [hcheck]
    simp only [Bool.false_eq_true, if_false]
    by_cases hl : g.LinkID = some "" <;> by_cases ha : g.Alias = some "" <;>
      simp [hl, ha, Scope.SetColumn]
  · intro a ha _ hm
    rw [ha]
    simp [hm]

/-- Counterexample to C13 as stated: a graph whose link identifier is the empty string
and whose alias holds a blank.  The hook of the embedded item succeeds, the alias is
refused, and the column `LinkID` is not set. -/
theorem Graph.BeforeSave_columns_refuted :
    Graph.BeforeSave Sample.nameRegexp Sample.itemOk Sample.misnamed ⟨[]⟩ =
      (⟨[]⟩, some Error.ErrInvalidAlias) ∧
    ¬ ∀ (nameRegexp : String → Bool) (itemBeforeSave : Scope → Scope × Option Error)
        (g : Graph) (scope sc : Scope),
      itemBeforeSave scope = (sc, none) → g.LinkID = some "" →
      ("LinkID", none) ∈ (Graph.BeforeSave nameRegexp itemBeforeSave g scope).1.columns := by
  have hrun : Graph.BeforeSave Sample.nameRegexp Sample.itemOk Sample.misnamed ⟨[]⟩ =
      (⟨[]⟩, some Error.ErrInvalidAlias) := by decide
  refine ⟨hrun, ?_⟩
  intro h
  have h1 := h Sample.nameRegexp Sample.itemOk Sample.misnamed ⟨[]⟩ ⟨[]⟩ rfl rfl
  rw [hrun] at h1
  cases h1

/-- Witness of C13, amended: a valid alias with an empty link identifier has the column
`LinkID` set to null and nothing else; an alias that holds a blank is refused with no
column set. -/
theorem Graph.BeforeSave_columns_witness :
    Graph.BeforeSave Sample.nameRegexp Sample.itemOk Sample.aliased ⟨[]⟩ =
      (⟨[("LinkID", none)]⟩, none) ∧
    Graph.BeforeSave Sample.nameRegexp Sample.itemOk Sample.misnamed ⟨[]⟩ =
      (⟨[]⟩, some Error.ErrInvalidAlias) :=
  ⟨(Graph.BeforeSave_columns Sample.nameRegexp Sample.itemOk Sample.aliased ⟨[]⟩ ⟨[]⟩ rfl).1
      (fun a h => by cases h; decide),
   (Graph.BeforeSave_columns Sample.nameRegexp Sample.itemOk Sample.misnamed ⟨[]⟩ ⟨[]⟩ rfl).2
      "bad alias" rfl (by decide) (by decide)⟩

end Facette.backend

namespace Facette.backend

open maputil

/-- `Expand` on a graph that is already expanded returns at once. -/
theorem Graph.Expand_of_expanded (st : Storage) (g : Graph) (attrs : Option Map)
    (he : g.expanded = true) : Graph.Expand st g attrs = .returned ⟨g, none, []⟩ := by
  unfold Graph.Expand
  simp [he]

/-- The shape of a returned `Expand` on a graph that is not yet expanded and has no
link to follow: the attributes are merged and the substitutions run on the graph
itself, without a lookup. -/
theorem Graph.Expand_not_linked_inv (st : Storage) (g : Graph) (attrs : Option Map) (r : Ret)
    (he : g.expanded = false) (hl : g.linked = false)
    (h : Graph.Expand st g attrs = .returned r) :
    ∃ a, g.mergeAttrs attrs = a ∧
      r = ⟨(Graph.substitute { g with Attributes := a }).1,
           (Graph.substitute { g with Attributes := a }).2, []⟩ := by
  obtain ⟨g', err, l⟩ := r
  obtain ⟨a, ha, hcase⟩ := Graph.Expand_returned_inv st g g' attrs err l he h
  have hnl := Graph.applyLink_not_linked st { g with Attributes := a } hl
  refine ⟨a, ha, ?_⟩
  rcases hcase with ⟨e, hl1, _⟩ | ⟨g1, hl1, hg, herr⟩
  · rw [hnl] at hl1
    injection hl1 with hl1
    injection hl1 with _ h2 _
    cases h2
  · rw [hnl] at hl1
    injection hl1 with hl1
    injection hl1 with h1 _ h3
    subst h1
    rw [hg, herr, ← h3]

/-- `Resolve` leaves the test of line 66 as it was. -/
theorem Graph.Resolve_linked (st : Storage) (g : Graph) :
    (Graph.Resolve st g).g.linked = g.linked := by
  obtain ⟨lk, rs, hfr⟩ := Graph.Resolve_frame st g
  rw [hfr]
  rfl

/-- The substitution stage leaves the link, its identifier, the back-end and the mark
`resolved`. -/
theorem Graph.substitute_link (g : Graph) :
    g.substitute.1.linked = g.linked ∧ g.substitute.1.resolved = g.resolved ∧
    g.substitute.1.Link = g.Link ∧ g.substitute.1.LinkID = g.LinkID := by
  obtain ⟨o, gs, x, hfr⟩ := Graph.substitute_frame g
  rw [hfr]
  exact ⟨rfl, rfl, rfl, rfl⟩

/-- One call leaves the mark `expanded` of an expanded graph. -/
theorem Call.apply_expanded (c : Call) (g : Graph) (r : Ret) (h : c.apply g = .returned r)
    (he : g.expanded = true) : r.g.expanded = true := by
  cases c with
  | Resolve st =>
    simp only [Call.apply, Outcome.returned.injEq] at h
    rw [← h, Graph.Resolve_expanded, he]
  | Expand st attrs =>
    simp only [Call.apply] at h
    rw [Graph.Expand_of_expanded st g attrs he] at h
    injection h with h
    rw [← h]
    exact he

/-- One call on a graph that is expanded or has no link to follow leaves such a graph,
and leaves the mark `resolved` when it is set. -/
theorem Call.apply_resolved (c : Call) (g : Graph) (r : Ret) (h : c.apply g = .returned r)
    (hq : g.expanded = true ∨ g.linked = false) :
    (r.g.expanded = true ∨ r.g.linked = false) ∧ (g.resolved = true → r.g.resolved = true) := by
  cases c with
  | Resolve st =>
    simp only [Call.apply, Outcome.returned.injEq] at h
    subst h
    refine ⟨?_, ?_⟩
    · rw [Graph.Resolve_expanded, Graph.Resolve_linked]
      exact hq
    · intro hr
      rw [Graph.Resolve_of_resolved st g hr]
      exact hr
  | Expand st attrs =>
    simp only [Call.apply] at h
    cases he : g.expanded with
    | true =>
      rw [Graph.Expand_of_expanded st g attrs he] at h
      injection h with h
      subst h
      exact ⟨Or.inl he, fun hr => hr⟩
    | false =>
      have hl : g.linked = false := by
        rcases hq with hq | hq
        · rw [he] at hq
          cases hq
        · exact hq
      obtain ⟨a, _, hr⟩ := Graph.Expand_not_linked_inv st g attrs r he hl h
      have hs := Graph.substitute_link { g with Attributes := a }
      rw [hr]
      exact ⟨Or.inr (hs.1.trans hl), fun hres => hs.2.1.trans hres⟩

/-- Claim C14, amended.  Over every sequence of `Resolve` and `Expand` calls on one
graph: once `expanded` is true it stays true; and on a graph that is already expanded
or has no link to follow, once `resolved` is true it stays true.  An `Expand` that
follows the link of a resolved graph copies the template over the receiver and leaves
it with the mark `resolved` of the template. -/
theorem runCalls_latches (calls : List Call) (g g' : Graph) (h : runCalls calls g = some g') :
    (g.expanded = true → g'.expanded = true) ∧
    ((g.expanded = true ∨ g.linked = false) → g.resolved = true → g'.resolved = true) ∧
    (∀ (st : Storage) (attrs : Option Map) (T : Graph) (r : Ret),
      g.resolved = true → g.expanded = false → g.linked = true → g.Link = some T →
      Graph.Expand st g attrs = .returned r → r.g.resolved = T.resolved) := by
  refine ⟨?_, ?_, ?_⟩
  · induction calls generalizing g with
    | nil =>
      simp only [runCalls, Option.some.injEq] at h
      subst h
      exact id
    | cons c rest ih =>
      intro he
      simp only [runCalls] at h
      cases hc : c.apply g with
      | panicked => rw [hc] at h; cases h
      | returned r =>
        rw [hc] at h
        exact ih r.g h (Call.apply_expanded c g r hc he)
  · induction calls generalizing g with
    | nil =>
      simp only [runCalls, Option.some.injEq] at h
      subst h
      exact fun _ hr => hr
    | cons c rest ih =>
      intro hq hr
      simp only [runCalls] at h
      cases hc : c.apply g with
      | panicked => rw [hc] at h; cases h
      | returned r =>
        rw [hc] at h
        have hstep := Call.apply_resolved c g r hc hq
        exact ih r.g h hstep.1 (hstep.2 hr)
  · intro st attrs T r hr he hl hT hE
    obtain ⟨g1, err, l⟩ := r
    obtain ⟨a, _, hcase⟩ := Graph.Expand_returned_inv st g g1 attrs err l he hE
    have hres : Graph.Resolve st { g with Attributes := a } =
        ⟨{ g with Attributes := a }, none, []⟩ := Graph.Resolve_of_resolved st _ hr
    rcases hcase with ⟨e, hl1, _⟩ | ⟨s1, hl1, hg, _⟩
    · have := Graph.applyLink_error_inv st { g with Attributes := a } g1 e l hl1
      rw [hres] at this
      exact absurd this.2 (by simp)
    · obtain ⟨T1, a2, o2, _, hT1, _, _, hs1, _⟩ :=
        Graph.applyLink_linked_ok st { g with Attributes := a } s1 l hl hl1
      rw [hres] at hT1
      simp only at hT1
      rw [hT] at hT1
      injection hT1 with hT1
      subst hT1
      simp only
      rw [hg, (Graph.substitute_link s1).2.1, hs1]

end Facette.backend

namespace Facette.backend

open maputil

/-- Counterexample to C14 as stated: the instance of the example, once resolved, is
expanded; the copy of the template over the receiver leaves `resolved` false. -/
theorem runCalls_resolved_refuted :
    (Graph.Resolve Sample.store Sample.linked).g = Sample.resolved ∧
    ¬ ∀ (calls : List Call) (g g' : Graph),
      runCalls calls g = some g' → g.resolved = true → g'.resolved = true := by
  refine ⟨rfl, ?_⟩
  intro h
  have h1 := h [Call.Expand Sample.store none] Sample.resolved Sample.expanded rfl rfl
  revert h1
  decide

/-- Witness of C14, amended: a resolved graph without a link is expanded and resolved
again, and stays resolved. -/
theorem runCalls_latches_witness :
    runCalls [Call.Expand Sample.store none, Call.Resolve Sample.store] Sample.plainResolved =
      some { Sample.plainResolved with expanded := true } ∧
    (({ Sample.plainResolved with expanded := true } : Graph).resolved = true) :=
  ⟨rfl, (runCalls_latches [Call.Expand Sample.store none, Call.Resolve Sample.store]
    Sample.plainResolved { Sample.plainResolved with expanded := true } rfl).2.1
      (Or.inr rfl) rfl⟩

/-- A fresh graph satisfies the invariant. -/
theorem Graph.linkSound_of_fresh (g : Graph) (h : g.fresh) : g.linkSound := by
  obtain ⟨hr, _, hl⟩ := h
  refine ⟨?_, ?_⟩
  · intro h1
    rw [hr] at h1
    cases h1
  · intro t ht
    rw [hl] at ht
    cases ht

/-- A new instance filled from the storage is neither resolved nor linked further. -/
theorem Storage.Get_new (st : Storage) (field value : String) (b : Backend) :
    (Storage.Get st field value b.NewGraph).1.resolved = false ∧
    (Storage.Get st field value b.NewGraph).1.Link = none := by
  unfold Storage.Get
  split <;> exact ⟨rfl, rfl⟩

/-- `Resolve` keeps the invariant. -/
theorem Graph.Resolve_linkSound (st : Storage) (g : Graph) (h : g.linkSound) :
    (Graph.Resolve st g).g.linkSound := by
  obtain ⟨⟨bk, gid⟩, groups, link, linkID, at0, al, op, tp, rs, ex⟩ := g
  unfold Graph.Resolve
  cases rs with
  | true => exact h
  | false =>
    cases bk with
    | none => exact h
    | some b =>
      cases linkID with
      | none =>
        refine ⟨?_, h.2⟩
        intro _ h2
        simp [Graph.hasLinkID] at h2
      | some id =>
        by_cases hne : id = ""
        · simp only [Bool.false_eq_true, if_false, ne_eq, hne, not_true_eq_false]
          refine ⟨?_, h.2⟩
          intro _ h2
          simp [Graph.hasLinkID, hne] at h2
        · simp only [Bool.false_eq_true, if_false, ne_eq, hne, not_false_eq_true, if_true]
          have hnew := Storage.Get_new st "id" id b
          cases hget : Storage.Get st "id" id b.NewGraph with
          | mk lk err =>
            rw [hget] at hnew
            cases err with
            | none =>
              refine ⟨fun _ _ => rfl, ?_⟩
              intro t ht
              simp only [Option.some.injEq] at ht
              subst ht
              exact hnew
            | some e =>
              refine ⟨?_, ?_⟩
              · intro h1
                cases h1
              · intro t ht
                simp only [Option.some.injEq] at ht
                subst ht
                exact hnew

end Facette.backend

namespace Facette.backend

open maputil

/-- The link stage aborts exactly when the graph is linked and `Resolve` succeeds and
leaves a nil `Link`. -/
theorem Graph.applyLink_panicked_iff (st : Storage) (g : Graph) :
    Graph.applyLink st g = .panicked ↔
      g.linked = true ∧ (Graph.Resolve st g).err = none ∧ (Graph.Resolve st g).g.Link = none := by
  unfold Graph.applyLink
  cases hl : g.linked with
  | false => simp
  | true =>
    simp only [if_true, true_and]
    cases hres : Graph.Resolve st g with
    | mk g1 err l =>
      cases err with
      | some e => simp
      | none =>
        cases hT : g1.Link with
        | none => simp [hT]
        | some T => simp [hT]

/-- An `Expand` aborts exactly when the graph is not yet expanded, is linked, and
`Resolve` succeeds and leaves a nil `Link`: the dereference of line 71. -/
theorem Graph.Expand_panicked_iff (st : Storage) (g : Graph) (attrs : Option Map) :
    Graph.Expand st g attrs = .panicked ↔
      g.expanded = false ∧ g.linked = true ∧ (Graph.Resolve st g).err = none ∧
        (Graph.Resolve st g).g.Link = none := by
  have hres := Graph.Resolve_attributes st g (g.mergeAttrs attrs)
  have hiff := Graph.applyLink_panicked_iff st { g with Attributes := g.mergeAttrs attrs }
  rw [hres] at hiff
  simp only at hiff
  have hlinked : Graph.linked { g with Attributes := g.mergeAttrs attrs } = g.linked := rfl
  rw [hlinked] at hiff
  unfold Graph.Expand
  by_cases he : g.expanded = true
  · simp [he]
  · have he' : g.expanded = false := by simpa using he
    rw [if_neg he, and_iff_right he', ← hiff]
    cases hp : Graph.applyLink st { g with Attributes := g.mergeAttrs attrs } with
    | panicked => simp
    | returned r =>
      obtain ⟨g1, err, l⟩ := r
      cases err <;> simp

end Facette.backend

namespace Facette.backend

open maputil

/-- The invariant reads the mark `resolved`, `LinkID` and `Link` only. -/
theorem Graph.linkSound_congr (g g' : Graph) (hr : g'.resolved = g.resolved)
    (hid : g'.LinkID = g.LinkID) (hl : g'.Link = g.Link) (h : g.linkSound) : g'.linkSound := by
  unfold Graph.linkSound Graph.hasLinkID at h ⊢
  rw [hr, hid, hl]
  exact h

/-- A linked graph has a non-empty `LinkID`. -/
theorem Graph.hasLinkID_of_linked (g : Graph) (h : g.linked = true) : g.hasLinkID = true := by
  unfold Graph.linked at h
  unfold Graph.hasLinkID
  simp only [Bool.and_eq_true] at h
  exact h.2

/-- A returned `Expand` keeps the invariant. -/
theorem Graph.Expand_linkSound (st : Storage) (g : Graph) (attrs : Option Map) (r : Ret)
    (h : g.linkSound) (hE : Graph.Expand st g attrs = .returned r) : r.g.linkSound := by
  cases he : g.expanded with
  | true =>
    rw [Graph.Expand_of_expanded st g attrs he] at hE
    injection hE with hE
    subst hE
    exact h
  | false =>
    obtain ⟨g', err, l⟩ := r
    obtain ⟨a, _, hcase⟩ := Graph.Expand_returned_inv st g g' attrs err l he hE
    have ha : Graph.linkSound { g with Attributes := a } :=
      Graph.linkSound_congr g _ rfl rfl rfl h
    have hres := Graph.Resolve_linkSound st { g with Attributes := a } ha
    rcases hcase with ⟨e, hl1, _⟩ | ⟨g1, hl1, hg, _⟩
    · obtain ⟨hlk, herr⟩ := Graph.applyLink_error_inv st { g with Attributes := a } g' e l hl1
      rw [Graph.applyLink_resolve_error st { g with Attributes := a } e hlk herr] at hl1
      injection hl1 with hl1
      injection hl1 with h1 _ _
      simp only
      rw [← h1]
      exact hres
    · have hg1 : g1.linkSound := by
        cases hlk : Graph.linked { g with Attributes := a } with
        | false =>
          rw [Graph.applyLink_not_linked st _ hlk] at hl1
          injection hl1 with hl1
          injection hl1 with h1 _ _
          rw [← h1]
          exact ha
        | true =>
          obtain ⟨T, a2, o2, _, hT, _, _, hs1, _⟩ :=
            Graph.applyLink_linked_ok st { g with Attributes := a } g1 l hlk hl1
          obtain ⟨hTr, hTl⟩ := hres.2 T hT
          rw [hs1]
          refine ⟨?_, ?_⟩
          · intro h1
            simp only at h1
            rw [hTr] at h1
            cases h1
          · intro t ht
            simp only at ht
            rw [hTl] at ht
            cases ht
      have hs := Graph.substitute_link g1
      simp only
      rw [hg]
      exact Graph.linkSound_congr g1 _ hs.2.1 hs.2.2.2 hs.2.2.1 hg1

/-- Every state reached by a sequence of calls from a state with the invariant has
it. -/
theorem runCalls_linkSound (calls : List Call) (g g' : Graph) (h : g.linkSound)
    (hrun : runCalls calls g = some g') : g'.linkSound := by
  induction calls generalizing g with
  | nil =>
    simp only [runCalls, Option.some.injEq] at hrun
    subst hrun
    exact h
  | cons c rest ih =>
    simp only [runCalls] at hrun
    cases hc : c.apply g with
    | panicked => rw [hc] at hrun; cases hrun
    | returned r =>
      rw [hc] at hrun
      refine ih r.g ?_ hrun
      cases c with
      | Resolve st =>
        simp only [Call.apply, Outcome.returned.injEq] at hc
        rw [← hc]
        exact Graph.Resolve_linkSound st g h
      | Expand st attrs =>
        exact Graph.Expand_linkSound st g attrs r h hc

/-- Claim C19.  On every state reached from a fresh graph (`resolved` and `expanded`
false, `Link` nil) by `Resolve` and `Expand` calls alone: when `resolved` is true and
`LinkID` is not empty, `Link` is not nil; and when the graph is linked and `Resolve`
succeeds on it, as it does inside `Expand` before the template is read, the `Link` it
leaves is not nil; so the dereference of `Link` never aborts there and `Expand`
returns. -/
theorem runCalls_link_present (calls : List Call) (g0 g : Graph) (hf : g0.fresh)
    (hrun : runCalls calls g0 = some g) :
    (g.resolved = true → g.hasLinkID = true → g.Link.isSome = true) ∧
    (∀ st : Storage, g.linked = true → (Graph.Resolve st g).err = none →
      (Graph.Resolve st g).g.Link.isSome = true) ∧
    (∀ (st : Storage) (attrs : Option Map), ∃ r, Graph.Expand st g attrs = .returned r) := by
  have hs : g.linkSound := runCalls_linkSound calls g0 g (Graph.linkSound_of_fresh g0 hf) hrun
  have hlink : ∀ st : Storage, g.linked = true → (Graph.Resolve st g).err = none →
      (Graph.Resolve st g).g.Link.isSome = true := by
    intro st hl herr
    have h1 := Graph.Resolve_linkSound st g hs
    have h2 := Graph.Resolve_ok_resolved st g herr
    obtain ⟨lk, rs, hfr⟩ := Graph.Resolve_frame st g
    have h3 : (Graph.Resolve st g).g.hasLinkID = true := by
      rw [hfr]
      exact Graph.hasLinkID_of_linked g hl
    exact h1.1 h2 h3
  refine ⟨hs.1, hlink, ?_⟩
  intro st attrs
  cases hp : Graph.Expand st g attrs with
  | returned r => exact ⟨r, rfl⟩
  | panicked =>
    obtain ⟨_, hl, herr, hnil⟩ := (Graph.Expand_panicked_iff st g attrs).mp hp
    have := hlink st hl herr
    rw [hnil] at this
    cases this

/-- Witness of C19: the instance of the example, resolved from its fresh state, holds
its template. -/
theorem runCalls_link_present_witness :
    Sample.linked.fresh ∧
    runCalls [Call.Resolve Sample.store] Sample.linked = some Sample.resolved ∧
    (Sample.resolved.resolved = true → Sample.resolved.hasLinkID = true →
      Sample.resolved.Link.isSome = true) :=
  ⟨⟨rfl, rfl, rfl⟩, rfl,
   (runCalls_link_present [Call.Resolve Sample.store] Sample.linked Sample.resolved
    ⟨rfl, rfl, rfl⟩ rfl).1⟩

end Facette.backend

namespace Facette.backend

open maputil

/-- The attributes of a new graph after the first step of `Expand` are those of the
call. -/
theorem Graph.mergeAttrs_new (b : Backend) (attrs : Option Map) (k : String) :
    Map.get (b.NewGraph.mergeAttrs attrs) k = Map.get attrs k := by
  rw [Graph.mergeAttrs_get b.NewGraph attrs _ rfl k]
  cases Map.get attrs k <;> rfl

/-- Claim C20, amended.  No merge of `Expand` aborts: `Expand` aborts only in the
dereference of a nil `Link` that a successful `Resolve` leaves on a linked graph, which
is not a write into a map.  After the first merge the attributes hold the entries of
the call also when the map of the graph was nil.  A graph without a link to follow, a
graph fresh from `NewGraph` among them, and a linked graph whose `Resolve` leaves a
template, with nil maps or not, make `Expand` return; on the graph fresh from
`NewGraph` it returns success with the attributes of the call. -/
theorem Graph.Expand_nil_map_returns (st : Storage) (g : Graph) (attrs : Option Map) :
    (Graph.Expand st g attrs = .panicked ↔
      g.expanded = false ∧ g.linked = true ∧ (Graph.Resolve st g).err = none ∧
        (Graph.Resolve st g).g.Link = none) ∧
    (∀ k, Map.get (g.mergeAttrs attrs) k = (Map.get attrs k).or (Map.get g.Attributes k)) ∧
    (g.linked = false → ∃ r, Graph.Expand st g attrs = .returned r) ∧
    (∀ T, (Graph.Resolve st g).g.Link = some T →
      ∃ r, Graph.Expand st g attrs = .returned r) ∧
    (∀ b : Backend, ∃ g', Graph.Expand st b.NewGraph attrs = .returned ⟨g', none, []⟩ ∧
      ∀ k, Map.get g'.Attributes k = Map.get attrs k) := by
  have hiff := Graph.Expand_panicked_iff st g attrs
  refine ⟨hiff, fun k => Graph.mergeAttrs_get g attrs _ rfl k, ?_, ?_, ?_⟩
  · intro hl
    cases hp : Graph.Expand st g attrs with
    | returned r => exact ⟨r, rfl⟩
    | panicked =>
      have := (hiff.mp hp).2.1
      rw [hl] at this
      cases this
  · intro T hT
    cases hp : Graph.Expand st g attrs with
    | returned r => exact ⟨r, rfl⟩
    | panicked =>
      have := (hiff.mp hp).2.2.2
      rw [hT] at this
      cases this
  · intro b
    refine ⟨{ b.NewGraph with Attributes := b.NewGraph.mergeAttrs attrs, expanded := true },
      rfl, ?_⟩
    intro k
    exact Graph.mergeAttrs_new b attrs k

/-- Counterexample to C20 as stated: a graph that is marked resolved, has a link
identifier and holds no `Link` makes `Expand` abort, in the dereference of `Link`. -/
theorem Graph.Expand_returns_refuted :
    Graph.Expand Sample.store Sample.relinked none = .panicked ∧
    ¬ ∀ (st : Storage) (g : Graph) (attrs : Option Map),
      ∃ r, Graph.Expand st g attrs = .returned r := by
  refine ⟨rfl, ?_⟩
  intro h
  obtain ⟨r, hr⟩ := h Sample.store Sample.relinked none
  cases hr

/-- The three cases C20 names, evaluated: a graph fresh from `NewGraph` called with one
attribute; the instance of the example on a template whose map of attributes is nil;
and the instance with a title of its own on a template whose map of options is nil.
Each call returns success. -/
theorem Graph.Expand_nil_map_returns_witness :
    Graph.Expand Sample.store Sample.b.NewGraph Sample.supplied =
      .returned ⟨{ Sample.b.NewGraph with Attributes := Sample.supplied, expanded := true },
        none, []⟩ ∧
    Graph.Expand Sample.bareStore Sample.linked none =
      .returned ⟨Sample.expanded, none, ["t"]⟩ ∧
    Graph.Expand Sample.plainStore Sample.titled none =
      .returned ⟨Sample.titledExpanded, none, ["t"]⟩ ∧
    ∃ r, Graph.Expand Sample.store Sample.b.NewGraph Sample.supplied = .returned r :=
  ⟨rfl, rfl, rfl,
   (Graph.Expand_nil_map_returns Sample.store Sample.b.NewGraph Sample.supplied).2.2.1 rfl⟩

end Facette.backend

namespace Facette.template

open maputil

/-- The only error of the scanner is that of an absent attribute. -/
theorem scan_error (a : Option Map) (mode : Option (List Char)) (cs : List Char) (e : Error)
    (h : scan a mode cs = .error e) : ∃ name, e = Error.UnresolvedAttribute name := by
  induction mode, cs using scan.induct a <;> simp_all [scan]
  exact ⟨_, h.symm⟩

/-- The only error of the substitution is that of an absent attribute. -/
theorem Expand_error (text : String) (a : Option Map) (e : Error)
    (h : (Expand text a).2 = some e) : ∃ name, e = Error.UnresolvedAttribute name := by
  unfold Expand at h
  split at h
  · cases h
  · rename_i e1 h1
    simp only [Option.some.injEq] at h
    subst h
    exact scan_error a none text.data e1 h1

end Facette.template

namespace Facette.backend

open maputil

/-- The four substitutions of a series leave its options. -/
theorem Series.expand_options (attrs : Option Map) (s : Series) :
    (Series.expand attrs s).1.Options = s.Options := by
  unfold Series.expand
  repeat' split
  all_goals rfl

/-- The loop over the series leaves their number, their order and the options of
each. -/
theorem expandSeries_frame (attrs : Option Map) (ss : List Series) :
    List.Forall₂ (fun s' s : Series => s'.Options = s.Options) (expandSeries attrs ss).1 ss := by
  induction ss with
  | nil => exact List.Forall₂.nil
  | cons s rest ih =>
    have hs := Series.expand_options attrs s
    unfold expandSeries
    cases h1 : Series.expand attrs s with
    | mk s1 e1 =>
      rw [h1] at hs
      cases e1 with
      | some e =>
        exact List.Forall₂.cons hs ((List.forall₂_same).mpr fun _ _ => rfl)
      | none =>
        cases h2 : expandSeries attrs rest with
        | mk rest1 e2 =>
          rw [h2] at ih
          exact List.Forall₂.cons hs ih

/-- The loop over the groups leaves their number and their order, the name, the
operator, the consolidation and the options of each, and the number, the order and the
options of the series of each. -/
theorem expandGroups_frame (attrs : Option Map) (gs : List SeriesGroup) :
    List.Forall₂ (fun grp' grp : SeriesGroup =>
        grp'.Name = grp.Name ∧ grp'.Operator = grp.Operator ∧
        grp'.Consolidate = grp.Consolidate ∧ grp'.Options = grp.Options ∧
        List.Forall₂ (fun s' s : Series => s'.Options = s.Options) grp'.Series grp.Series)
      (expandGroups attrs gs).1 gs := by
  have hsame : ∀ l : List SeriesGroup, List.Forall₂ (fun grp' grp : SeriesGroup =>
        grp'.Name = grp.Name ∧ grp'.Operator = grp.Operator ∧
        grp'.Consolidate = grp.Consolidate ∧ grp'.Options = grp.Options ∧
        List.Forall₂ (fun s' s : Series => s'.Options = s.Options) grp'.Series grp.Series)
      l l := fun l =>
    (List.forall₂_same).mpr fun _ _ =>
      ⟨rfl, rfl, rfl, rfl, (List.forall₂_same).mpr fun _ _ => rfl⟩
  induction gs with
  | nil => exact List.Forall₂.nil
  | cons grp rest ih =>
    have hs := expandSeries_frame attrs grp.Series
    unfold expandGroups
    cases h1 : expandSeries attrs grp.Series with
    | mk ss e1 =>
      rw [h1] at hs
      cases e1 with
      | some e => exact List.Forall₂.cons ⟨rfl, rfl, rfl, rfl, hs⟩ (hsame rest)
      | none =>
        cases h2 : expandGroups attrs rest with
        | mk rest1 e2 =>
          rw [h2] at ih
          exact List.Forall₂.cons ⟨rfl, rfl, rfl, rfl, hs⟩ ih

/-- The substitution stage leaves the number and the order of the groups and of their
series, and of each group and series everything but the four texts of the series. -/
theorem Graph.substitute_groups_frame (g : Graph) :
    List.Forall₂ (fun grp' grp : SeriesGroup =>
        grp'.Name = grp.Name ∧ grp'.Operator = grp.Operator ∧
        grp'.Consolidate = grp.Consolidate ∧ grp'.Options = grp.Options ∧
        List.Forall₂ (fun s' s : Series => s'.Options = s.Options) grp'.Series grp.Series)
      g.substitute.1.Groups g.Groups := by
  have hfr := Graph.expandTitle_attributes g
  unfold Graph.substitute
  split
  · rename_i g1 e h1
    rw [h1] at hfr
    simp only at hfr ⊢
    rw [hfr.2]
    exact (List.forall₂_same).mpr fun _ _ =>
      ⟨rfl, rfl, rfl, rfl, (List.forall₂_same).mpr fun _ _ => rfl⟩
  · rename_i g1 h1
    rw [h1] at hfr
    simp only at hfr
    have := expandGroups_frame g1.Attributes g1.Groups
    rw [hfr.2] at this
    split
    · rename_i gs e h2
      rw [hfr.2] at h2
      rw [h2] at this
      exact this
    · rename_i gs h2
      rw [hfr.2] at h2
      rw [h2] at this
      exact this

/-- The title substitution leaves options whose title is not a string. -/
theorem Graph.expandTitle_no_title (g : Graph)
    (h : ∀ t, Map.get g.Options "title" ≠ some (Value.str t)) : g.expandTitle = (g, none) := by
  unfold Graph.expandTitle
  split
  · rename_i title ht
    exact absurd ht (h title)
  · rfl

end Facette.backend

namespace Facette.backend

open maputil

/-- Claim C15.  On a graph without a back-end, or whose `LinkID` is nil or empty,
`Expand` returns; it has looked nothing up, its error, if any, is the error
of a substitution against the attributes (never `ErrUnresolvableItem`), and it has left
the embedded item with its `ID`, `LinkID`, `Link`, `Alias`, `Template`, `resolved`, the
number and order of the groups and of their series, the `Name`, `Operator`,
`Consolidate` and `Options` of each group, the `Options` of each series, every entry of
`Options` but `title`, and the whole of `Options` when the title is not a string; the
attributes are those of the graph merged with those of the call, and a graph already
expanded stays as it is. -/
theorem Graph.Expand_unlinked_frame (st : Storage) (g : Graph) (attrs : Option Map)
    (hl : g.linked = false) :
    (∃ r, Graph.Expand st g attrs = .returned r) ∧
    ∀ r, Graph.Expand st g attrs = .returned r →
      r.lookups = [] ∧ r.err ≠ some Error.ErrUnresolvableItem ∧
      (∀ e, r.err = some e → ∃ text, (template.Expand text r.g.Attributes).2 = some e) ∧
      r.g.toItem = g.toItem ∧ r.g.LinkID = g.LinkID ∧ r.g.Link = g.Link ∧
      r.g.Alias = g.Alias ∧ r.g.Template = g.Template ∧ r.g.resolved = g.resolved ∧
      List.Forall₂ (fun grp' grp : SeriesGroup =>
          grp'.Name = grp.Name ∧ grp'.Operator = grp.Operator ∧
          grp'.Consolidate = grp.Consolidate ∧ grp'.Options = grp.Options ∧
          List.Forall₂ (fun s' s : Series => s'.Options = s.Options) grp'.Series grp.Series)
        r.g.Groups g.Groups ∧
      (∀ k, k ≠ "title" → Map.get r.g.Options k = Map.get g.Options k) ∧
      ((∀ t, Map.get g.Options "title" ≠ some (Value.str t)) → r.g.Options = g.Options) ∧
      (g.expanded = false →
        ∀ k, Map.get r.g.Attributes k = (Map.get attrs k).or (Map.get g.Attributes k)) ∧
      (g.expanded = true → r.g = g ∧ r.err = none) := by
  have hsame : List.Forall₂ (fun grp' grp : SeriesGroup =>
          grp'.Name = grp.Name ∧ grp'.Operator = grp.Operator ∧
          grp'.Consolidate = grp.Consolidate ∧ grp'.Options = grp.Options ∧
          List.Forall₂ (fun s' s : Series => s'.Options = s.Options) grp'.Series grp.Series)
        g.Groups g.Groups :=
    (List.forall₂_same).mpr fun _ _ =>
      ⟨rfl, rfl, rfl, rfl, (List.forall₂_same).mpr fun _ _ => rfl⟩
  constructor
  · cases hp : Graph.Expand st g attrs with
    | returned r => exact ⟨r, rfl⟩
    | panicked =>
      have := ((Graph.Expand_panicked_iff st g attrs).mp hp).2.1
      rw [hl] at this
      cases this
  · intro r h
    cases he : g.expanded with
    | true =>
      rw [Graph.Expand_of_expanded st g attrs he] at h
      injection h with h
      subst h
      refine ⟨rfl, by simp, by simp, rfl, rfl, rfl, rfl, rfl, rfl, hsame, fun _ _ => rfl,
        fun _ => rfl, by simp, fun _ => ⟨rfl, rfl⟩⟩
    | false =>
      obtain ⟨a, ha, hr⟩ := Graph.Expand_not_linked_inv st g attrs r he hl h
      subst hr
      have hattr := Graph.substitute_attributes { g with Attributes := a }
      have hgroups := Graph.substitute_groups_frame { g with Attributes := a }
      have hopt := Graph.substitute_options { g with Attributes := a }
      have herr : ∀ e, (Graph.substitute { g with Attributes := a }).2 = some e →
          ∃ text, (template.Expand text a).2 = some e :=
        fun e h2 => Graph.substitute_error { g with Attributes := a } e h2
      obtain ⟨o, gs, x, hfr⟩ := Graph.substitute_frame { g with Attributes := a }
      simp only
      refine ⟨trivial, ?_, ?_, ?_, ?_, ?_, ?_, ?_, ?_, hgroups, ?_, ?_, ?_, by simp⟩
      · intro h2
        obtain ⟨text, ht⟩ := herr _ h2
        obtain ⟨name, hname⟩ := template.Expand_error text a _ ht
        cases hname
      · intro e h2
        rw [hattr]
        exact herr e h2
      · rw [hfr]
      · rw [hfr]
      · rw [hfr]
      · rw [hfr]
      · rw [hfr]
      · rw [hfr]
      · intro k hk
        rw [hopt]
        exact Graph.expandTitle_get { g with Attributes := a } k hk
      · intro hnot
        rw [hopt, Graph.expandTitle_no_title { g with Attributes := a } hnot]
      · intro _ k
        rw [hattr]
        exact Graph.mergeAttrs_get g attrs a ha k

end Facette.backend

namespace Facette.backend

open maputil

/-- When the four substitutions of a series fail, the failing text is the first of
`Name`, `Origin`, `Source`, `Metric` whose substitution fails: the texts before it hold
their substitution and the texts after it are as they were. -/
theorem Series.expand_error_fields (attrs : Option Map) (s s' : Series) (e : Error)
    (h : Series.expand attrs s = (s', some e)) :
    s'.Options = s.Options ∧
    (((template.Expand s.Name attrs).2 = some e ∧
        s'.Origin = s.Origin ∧ s'.Source = s.Source ∧ s'.Metric = s.Metric) ∨
     (template.Expand s.Name attrs = (s'.Name, none) ∧
        (template.Expand s.Origin attrs).2 = some e ∧
        s'.Source = s.Source ∧ s'.Metric = s.Metric) ∨
     (template.Expand s.Name attrs = (s'.Name, none) ∧
        template.Expand s.Origin attrs = (s'.Origin, none) ∧
        (template.Expand s.Source attrs).2 = some e ∧ s'.Metric = s.Metric) ∨
     (template.Expand s.Name attrs = (s'.Name, none) ∧
        template.Expand s.Origin attrs = (s'.Origin, none) ∧
        template.Expand s.Source attrs = (s'.Source, none) ∧
        (template.Expand s.Metric attrs).2 = some e)) := by
  have hopt := Series.expand_options attrs s
  rw [h] at hopt
  refine ⟨hopt, ?_⟩
  unfold Series.expand at h
  split at h
  · rename_i name e1 h1
    injection h with hs he
    injection he with he
    subst he
    subst hs
    exact Or.inl ⟨by rw [h1], rfl, rfl, rfl⟩
  · rename_i name h1
    split at h
    · rename_i origin e1 h2
      injection h with hs he
      injection he with he
      subst he
      subst hs
      exact Or.inr (Or.inl ⟨h1, by rw [h2], rfl, rfl⟩)
    · rename_i origin h2
      split at h
      · rename_i source e1 h3
        injection h with hs he
        injection he with he
        subst he
        subst hs
        exact Or.inr (Or.inr (Or.inl ⟨h1, h2, by rw [h3], rfl⟩))
      · rename_i source h3
        split at h
        rename_i metric e1 h4
        injection h with hs he
        subst he
        subst hs
        exact Or.inr (Or.inr (Or.inr ⟨h1, h2, h3, by rw [h4]⟩))

/-- When the loop over the series succeeds, the substitutions of every series did. -/
theorem expandSeries_eq_none (attrs : Option Map) (ss : List Series)
    (h : (expandSeries attrs ss).2 = none) :
    ∀ s ∈ ss, (Series.expand attrs s).2 = none := by
  induction ss with
  | nil => intro s hs; cases hs
  | cons s rest ih =>
    unfold expandSeries at h
    cases h1 : Series.expand attrs s with
    | mk s1 e1 =>
      rw [h1] at h
      cases e1 with
      | some e => cases h
      | none =>
        simp only at h
        cases h2 : expandSeries attrs rest with
        | mk rest1 e2 =>
          rw [h2] at h ih
          simp only at h ih
          intro s0 hs0
          rcases List.mem_cons.mp hs0 with rfl | hmem
          · rw [h1]
          · exact ih h s0 hmem

/-- When the loop over the series fails, the failing series is the first whose
substitutions fail: those of the series before it succeeded, these series are
substituted, and the series after it are as they were. -/
theorem expandSeries_first_error (attrs : Option Map) (ss ss' : List Series) (e : Error)
    (h : expandSeries attrs ss = (ss', some e)) :
    ∃ pre s post, ss = pre ++ s :: post ∧
      (∀ s1 ∈ pre, (Series.expand attrs s1).2 = none) ∧
      (Series.expand attrs s).2 = some e ∧
      ss' = pre.map (Series.substituted attrs) ++ (Series.expand attrs s).1 :: post := by
  induction ss generalizing ss' with
  | nil => simp [expandSeries] at h
  | cons s rest ih =>
    unfold expandSeries at h
    cases h1 : Series.expand attrs s with
    | mk s1 e1 =>
      rw [h1] at h
      cases e1 with
      | some e2 =>
        simp only [Prod.mk.injEq, Option.some.injEq] at h
        refine ⟨[], s, rest, rfl, by simp, ?_, ?_⟩
        · rw [h1, ← h.2]
        · rw [h1, ← h.1]
          rfl
      | none =>
        simp only at h
        cases h2 : expandSeries attrs rest with
        | mk rest1 e3 =>
          rw [h2] at h
          simp only [Prod.mk.injEq] at h
          obtain ⟨hss, he3⟩ := h
          subst he3
          obtain ⟨pre, s2, post, hrest, hpre, herr, hrest1⟩ := ih rest1 h2
          have hs := Series.expand_ok attrs s (by rw [h1])
          rw [h1] at hs
          simp only at hs
          refine ⟨s :: pre, s2, post, by rw [hrest]; rfl, ?_, herr, ?_⟩
          · intro s0 hs0
            rcases List.mem_cons.mp hs0 with rfl | hmem
            · rw [h1]
            · exact hpre s0 hmem
          · rw [← hss, hrest1, hs]
            rfl

/-- When the loop over the groups fails, the failing series is the first, in the order
of the groups and of their series, whose substitutions fail: the groups before its
group are substituted without an error and the groups after it are as they were, and
in its group the series before it are substituted without an error and the series
after it are as they were. -/
theorem expandGroups_first_error (attrs : Option Map) (gs gs' : List SeriesGroup) (e : Error)
    (h : expandGroups attrs gs = (gs', some e)) :
    ∃ gpre grp gpost pre s post, gs = gpre ++ grp :: gpost ∧ grp.Series = pre ++ s :: post ∧
      (∀ grp0 ∈ gpre, ∀ s1 ∈ grp0.Series, (Series.expand attrs s1).2 = none) ∧
      (∀ s1 ∈ pre, (Series.expand attrs s1).2 = none) ∧
      (Series.expand attrs s).2 = some e ∧
      gs' = gpre.map (SeriesGroup.substituted attrs) ++
        { grp with Series := pre.map (Series.substituted attrs) ++
            (Series.expand attrs s).1 :: post } :: gpost := by
  induction gs generalizing gs' with
  | nil => simp [expandGroups] at h
  | cons grp rest ih =>
    unfold expandGroups at h
    cases h1 : expandSeries attrs grp.Series with
    | mk ss1 e1 =>
      rw [h1] at h
      cases e1 with
      | some e2 =>
        simp only [Prod.mk.injEq, Option.some.injEq] at h
        obtain ⟨hgs, he⟩ := h
        subst he
        obtain ⟨pre, s, post, hser, hpre, herr, hss1⟩ :=
          expandSeries_first_error attrs _ _ _ h1
        refine ⟨[], grp, rest, pre, s, post, rfl, hser, by simp, hpre, herr, ?_⟩
        rw [← hgs, hss1]
        rfl
      | none =>
        simp only at h
        cases h2 : expandGroups attrs rest with
        | mk rest1 e3 =>
          rw [h2] at h
          simp only [Prod.mk.injEq] at h
          obtain ⟨hgs, he3⟩ := h
          subst he3
          obtain ⟨gpre, grp2, gpost, pre, s, post, hrest, hser, hgpre, hpre, herr, hrest1⟩ :=
            ih rest1 h2
          have hs := expandSeries_ok attrs grp.Series (by rw [h1])
          have hall := expandSeries_eq_none attrs grp.Series (by rw [h1])
          rw [h1] at hs
          simp only at hs
          refine ⟨grp :: gpre, grp2, gpost, pre, s, post, by rw [hrest]; rfl, hser, ?_, hpre,
            herr, ?_⟩
          · intro grp0 hg0
            rcases List.mem_cons.mp hg0 with rfl | hmem
            · exact hall
            · exact hgpre grp0 hmem
          · rw [← hgs, hrest1, hs]
            rfl

/-- When the title substitution returns no error, the title is not a string or its
substitution succeeded. -/
theorem Graph.expandTitle_eq_none (g : Graph) (h : g.expandTitle.2 = none) :
    ∀ t, Map.get g.Options "title" = some (Value.str t) →
      (template.Expand t g.Attributes).2 = none := by
  intro t ht
  unfold Graph.expandTitle at h
  rw [ht] at h
  exact h

end Facette.backend

namespace Facette.backend

open maputil

/-- The shape of a failed substitution stage.  Either the title is a string whose
substitution failed, and the groups are as they were; or the title, when a string, is
substituted without an error, and the loop over the groups failed at the first series
whose substitutions fail. -/
theorem Graph.substitute_first_error (g : Graph) (e : Error) (h : g.substitute.2 = some e) :
    ((∃ t, Map.get g.Options "title" = some (Value.str t) ∧
        (template.Expand t g.Attributes).2 = some e) ∧
      g.substitute.1.Groups = g.Groups) ∨
    ((∀ t, Map.get g.Options "title" = some (Value.str t) →
        (template.Expand t g.Attributes).2 = none) ∧
      Map.get g.substitute.1.Options "title" = substitutedTitle g.Options g.Attributes ∧
      ∃ gpre grp gpost pre s post s',
        g.Groups = gpre ++ grp :: gpost ∧ grp.Series = pre ++ s :: post ∧
        (∀ grp0 ∈ gpre, ∀ s1 ∈ grp0.Series, (Series.expand g.Attributes s1).2 = none) ∧
        (∀ s1 ∈ pre, (Series.expand g.Attributes s1).2 = none) ∧
        Series.expand g.Attributes s = (s', some e) ∧
        g.substitute.1.Groups = gpre.map (SeriesGroup.substituted g.Attributes) ++
          { grp with Series := pre.map (Series.substituted g.Attributes) ++ s' :: post } ::
            gpost) := by
  cases h1 : g.expandTitle with
  | mk g1 e1 =>
    have hfr := Graph.expandTitle_attributes g
    have htitle := Graph.expandTitle_substitutedTitle g
    have hnone := Graph.expandTitle_eq_none g
    rw [h1] at hfr htitle hnone
    simp only at hfr htitle hnone
    cases e1 with
    | some e2 =>
      left
      have h3 : g.substitute = (g1, some e2) := by
        unfold Graph.substitute
        rw [h1]
      rw [h3] at h ⊢
      simp only [Option.some.injEq] at h
      subst h
      refine ⟨?_, hfr.2⟩
      unfold Graph.expandTitle at h1
      split at h1
      · rename_i title ht
        split at h1
        rename_i v e3 h2
        injection h1 with h4 h5
        exact ⟨title, ht, by rw [h2, h5]⟩
      · cases h1
    | none =>
      right
      refine ⟨hnone rfl, ?_⟩
      cases h2 : expandGroups g.Attributes g.Groups with
      | mk gs e3 =>
        have h3 : g.substitute.2 = e3 ∧ g.substitute.1.Groups = gs ∧
            g.substitute.1.Options = g1.Options := by
          unfold Graph.substitute
          rw [h1]
          simp only
          rw [hfr.1, hfr.2, h2]
          cases e3 <;> exact ⟨rfl, rfl, rfl⟩
        rw [h3.1] at h
        subst h
        rw [h3.2.1, h3.2.2]
        refine ⟨htitle, ?_⟩
        obtain ⟨gpre, grp, gpost, pre, s, post, hg, hser, hgpre, hpre, herr, hgs⟩ :=
          expandGroups_first_error g.Attributes g.Groups gs e h2
        exact ⟨gpre, grp, gpost, pre, s, post, (Series.expand g.Attributes s).1, hg, hser,
          hgpre, hpre, by rw [← herr], hgs⟩

end Facette.backend

namespace Facette.backend

open maputil

/-- Claim C16.  A failed `Expand` on a graph that is not yet expanded fails in one of
three places.  The lookup of the link failed, and nothing is substituted.  Or the link
stage left the graph `s0` (the graph itself with the merged attributes when it has no
link to follow, the template overlaid with the instance otherwise) and the title of
`s0`, a string, failed to substitute: the groups are those of `s0`, no series text is
changed.  Or the title, when a string, is substituted without an error and the error is
that of the first series, in the order of the groups and of their series, whose
substitutions fail: every series before it is substituted, every series after it holds
its text of `s0`, and in the failing series the error is that of the first of `Name`,
`Origin`, `Source`, `Metric` whose substitution fails, the texts before it hold their
substitution and the texts after it their text of `s0`. -/
theorem Graph.Expand_first_failure (st : Storage) (g g' : Graph) (attrs : Option Map)
    (e : Error) (l : List String) (he : g.expanded = false)
    (h : Graph.Expand st g attrs = .returned ⟨g', some e, l⟩) :
    (g.linked = true ∧ (Graph.Resolve st g).err = some e ∧
        g'.Groups = g.Groups ∧ g'.Options = g.Options) ∨
      ∃ s0, Graph.applyLink st { g with Attributes := g.mergeAttrs attrs } =
          .returned ⟨s0, none, l⟩ ∧
        (g.linked = false → s0 = { g with Attributes := g.mergeAttrs attrs }) ∧
        g'.Attributes = s0.Attributes ∧
        (((∃ t, Map.get s0.Options "title" = some (Value.str t) ∧
              (template.Expand t s0.Attributes).2 = some e) ∧
            g'.Groups = s0.Groups) ∨
         ((∀ t, Map.get s0.Options "title" = some (Value.str t) →
              (template.Expand t s0.Attributes).2 = none) ∧
            Map.get g'.Options "title" = substitutedTitle s0.Options s0.Attributes ∧
            ∃ gpre grp gpost pre s post s',
              s0.Groups = gpre ++ grp :: gpost ∧ grp.Series = pre ++ s :: post ∧
              (∀ grp0 ∈ gpre, ∀ s1 ∈ grp0.Series,
                (Series.expand s0.Attributes s1).2 = none) ∧
              (∀ s1 ∈ pre, (Series.expand s0.Attributes s1).2 = none) ∧
              g'.Groups = gpre.map (SeriesGroup.substituted s0.Attributes) ++
                { grp with Series := pre.map (Series.substituted s0.Attributes) ++
                    s' :: post } :: gpost ∧
              s'.Options = s.Options ∧
              (((template.Expand s.Name s0.Attributes).2 = some e ∧
                  s'.Origin = s.Origin ∧ s'.Source = s.Source ∧ s'.Metric = s.Metric) ∨
               (template.Expand s.Name s0.Attributes = (s'.Name, none) ∧
                  (template.Expand s.Origin s0.Attributes).2 = some e ∧
                  s'.Source = s.Source ∧ s'.Metric = s.Metric) ∨
               (template.Expand s.Name s0.Attributes = (s'.Name, none) ∧
                  template.Expand s.Origin s0.Attributes = (s'.Origin, none) ∧
                  (template.Expand s.Source s0.Attributes).2 = some e ∧
                  s'.Metric = s.Metric) ∨
               (template.Expand s.Name s0.Attributes = (s'.Name, none) ∧
                  template.Expand s.Origin s0.Attributes = (s'.Origin, none) ∧
                  template.Expand s.Source s0.Attributes = (s'.Source, none) ∧
                  (template.Expand s.Metric s0.Attributes).2 = some e)))) := by
  obtain ⟨a, ha, hcase⟩ := Graph.Expand_returned_inv st g g' attrs (some e) l he h
  subst ha
  rcases hcase with ⟨e1, hl1, he1⟩ | ⟨s0, hl1, hg, herr⟩
  · left
    injection he1 with he1
    subst he1
    obtain ⟨hlk, hres⟩ := Graph.applyLink_error_inv st _ g' e l hl1
    have hlk' : g.linked = true := hlk
    rw [Graph.applyLink_resolve_error st _ e hlk hres] at hl1
    injection hl1 with hl1
    injection hl1 with hg' _ _
    rw [Graph.Resolve_attributes] at hres hg'
    obtain ⟨lk, rs, hfr⟩ := Graph.Resolve_frame st g
    simp only at hres hg'
    refine ⟨hlk', hres, ?_, ?_⟩
    · rw [← hg', hfr]
    · rw [← hg', hfr]
  · right
    refine ⟨s0, hl1, ?_, ?_, ?_⟩
    · intro hnl
      have hnl' : ({ g with Attributes := g.mergeAttrs attrs } : Graph).linked = false := hnl
      rw [Graph.applyLink_not_linked st _ hnl'] at hl1
      injection hl1 with hl1
      injection hl1 with h1 _ _
      exact h1.symm
    · rw [hg, Graph.substitute_attributes]
    · rcases Graph.substitute_first_error s0 e herr.symm with ⟨ht, hgr⟩ | ⟨ht, htitle, rest⟩
      · left
        rw [hg]
        exact ⟨ht, hgr⟩
      · right
        rw [hg]
        refine ⟨ht, htitle, ?_⟩
        obtain ⟨gpre, grp, gpost, pre, s, post, s', hgs, hser, hgpre, hpre, hexp, hres⟩ := rest
        obtain ⟨hopt, hfields⟩ := Series.expand_error_fields s0.Attributes s s' e hexp
        exact ⟨gpre, grp, gpost, pre, s, post, s', hgs, hser, hgpre, hpre, hres, hopt, hfields⟩

/-- Witness of C16: the graph whose first series names the absent `x` in its `Name`.
The error is that of this name; the graph has no link to follow, so the link stage left
the graph itself, and the failed call keeps its attributes. -/
theorem Graph.Expand_first_failure_witness :
    Graph.Expand Sample.store Sample.unbound none =
      .returned ⟨Sample.unboundFailed, some (Error.UnresolvedAttribute "x"), []⟩ ∧
    ∃ s0, Graph.applyLink Sample.store
        { Sample.unbound with Attributes := Sample.unbound.mergeAttrs none } =
          .returned ⟨s0, none, []⟩ ∧
      Sample.unboundFailed.Attributes = s0.Attributes :=
  ⟨rfl,
   (Graph.Expand_first_failure Sample.store Sample.unbound Sample.unboundFailed none
      (Error.UnresolvedAttribute "x") [] rfl rfl).elim
      (fun hres => absurd hres.1 (by decide))
      (fun hsub => hsub.imp fun _ h => ⟨h.1, h.2.2.1⟩)⟩

/-- Witness of C15: the graph without a link, expanded with the attribute it misses,
has looked nothing up and keeps its item and its empty link. -/
theorem Graph.Expand_unlinked_frame_witness :
    Graph.Expand Sample.store Sample.unbound Sample.supplied =
      .returned ⟨Sample.unboundWith "1" "prod" Sample.completed true, none, []⟩ ∧
    (Sample.unboundWith "1" "prod" Sample.completed true).toItem = Sample.unbound.toItem ∧
    (Sample.unboundWith "1" "prod" Sample.completed true).LinkID = Sample.unbound.LinkID ∧
    (Sample.unboundWith "1" "prod" Sample.completed true).Link = Sample.unbound.Link :=
  have hw := (Graph.Expand_unlinked_frame Sample.store Sample.unbound Sample.supplied rfl).2
    ⟨Sample.unboundWith "1" "prod" Sample.completed true, none, []⟩ rfl
  ⟨rfl, hw.2.2.2.1, hw.2.2.2.2.1, hw.2.2.2.2.2.1⟩

end Facette.backend

namespace Facette.backend

open maputil

/-- `Resolve` on a linked graph that is not yet resolved looks its identifier up once,
into a new instance that it stores in `Link`, and returns the error of the lookup. -/
theorem Graph.Resolve_fetch (st : Storage) (g : Graph) (b : Backend) (id : String)
    (hr : g.resolved = false) (hb : g.backend = some b) (hid : g.LinkID = some id)
    (hne : id ≠ "") :
    (Graph.Resolve st g).lookups = [id] ∧
    (Graph.Resolve st g).err = (Storage.Get st "id" id b.NewGraph).2 ∧
    (Graph.Resolve st g).g.Link = some (Storage.Get st "id" id b.NewGraph).1 := by
  obtain ⟨⟨bk, gid⟩, groups, link, linkID, at0, al, op, tp, rs, ex⟩ := g
  simp only at hr hb hid
  subst hr hb hid
  unfold Graph.Resolve
  simp only [Bool.false_eq_true, if_false, hne, ne_eq, not_false_eq_true, if_true]
  cases hget : Storage.Get st "id" id b.NewGraph with
  | mk lk err =>
    cases err <;> exact ⟨rfl, rfl, rfl⟩

/-- A successful lookup fills the new instance from the row found. -/
theorem Storage.Get_ok (st : Storage) (field value : String) (dest : Graph)
    (h : (Storage.Get st field value dest).2 = none) :
    ∃ row, st field value = .ok row ∧
      (Storage.Get st field value dest).1.LinkID = row.LinkID ∧
      (Storage.Get st field value dest).1.Groups = row.Groups := by
  unfold Storage.Get at h ⊢
  cases hst : st field value with
  | ok row => exact ⟨row, rfl, rfl, rfl⟩
  | error e => rw [hst] at h; cases h

end Facette.backend

namespace Facette.backend

open maputil

/-- Claim C17, amended.  On a graph with a back-end and a non-empty `LinkID` that is not
yet expanded, a returned `Expand` has looked up the identifier of the graph, once, when
the graph was not yet resolved, and nothing when it was; no other identifier is looked
up.  When `Resolve` succeeds and leaves the template `T` in `Link`, the receiver ends
with the `LinkID` and the `Link` of `T`, and on success with the groups of `T`,
substituted; a template fetched by this call holds the `LinkID` and the groups of the
row found, whatever that `LinkID` is, and its `Link` is nil. -/
theorem Graph.Expand_one_level (st : Storage) (g g' : Graph) (attrs : Option Map)
    (err : Option Error) (l : List String) (b : Backend) (id : String)
    (he : g.expanded = false) (hb : g.backend = some b) (hid : g.LinkID = some id)
    (hne : id ≠ "") (h : Graph.Expand st g attrs = .returned ⟨g', err, l⟩) :
    l = (if g.resolved then [] else [id]) ∧
    ((Graph.Resolve st g).err = none →
      ∃ T, (Graph.Resolve st g).g.Link = some T ∧
        g'.LinkID = T.LinkID ∧ g'.Link = T.Link ∧
        (err = none → g'.Groups = T.Groups.map (SeriesGroup.substituted g'.Attributes)) ∧
        (g.resolved = true → g.Link = some T) ∧
        (g.resolved = false →
          ∃ row, st "id" id = .ok row ∧ T.LinkID = row.LinkID ∧ T.Groups = row.Groups ∧
            T.Link = none)) := by
  have hlk : g.linked = true := by
    unfold Graph.linked
    rw [hb, hid]
    simpa using hne
  have hlook : (Graph.Resolve st g).lookups = (if g.resolved then [] else [id]) := by
    cases hr : g.resolved with
    | true => rw [Graph.Resolve_of_resolved st g hr]; rfl
    | false => rw [(Graph.Resolve_fetch st g b id hr hb hid hne).1]; rfl
  obtain ⟨a, ha, hcase⟩ := Graph.Expand_returned_inv st g g' attrs err l he h
  have hres := Graph.Resolve_attributes st g a
  have hlk' : ({ g with Attributes := a } : Graph).linked = true := hlk
  rcases hcase with ⟨e, hl1, herr⟩ | ⟨g1, hl1, hg, herr⟩
  · obtain ⟨_, hre⟩ := Graph.applyLink_error_inv st _ g' e l hl1
    rw [Graph.applyLink_resolve_error st _ e hlk' hre] at hl1
    injection hl1 with hl1
    injection hl1 with _ _ hl2
    rw [hres] at hre hl2
    simp only at hre hl2
    refine ⟨by rw [← hl2, hlook], ?_⟩
    intro hok
    rw [hok] at hre
    cases hre
  · obtain ⟨T, a2, o2, hok, hT, _, _, hg1, hl2⟩ :=
      Graph.applyLink_linked_ok st _ g1 l hlk' hl1
    rw [hres] at hok hT hl2
    simp only at hok hT hl2
    refine ⟨by rw [hl2, hlook], ?_⟩
    intro _
    obtain ⟨o, gs, x, hfr⟩ := Graph.substitute_frame g1
    refine ⟨T, hT, ?_, ?_, ?_, ?_, ?_⟩
    · rw [hg, hfr, hg1]
    · rw [hg, hfr, hg1]
    · intro hnone
      rw [hnone] at herr
      rw [hg, Graph.substitute_ok g1 herr.symm, hg1]
    · intro hr
      rw [Graph.Resolve_of_resolved st g hr] at hT
      exact hT
    · intro hr
      obtain ⟨_, herr2, hlink⟩ := Graph.Resolve_fetch st g b id hr hb hid hne
      rw [hlink] at hT
      injection hT with hT
      rw [herr2] at hok
      obtain ⟨row, hrow, h1, h2⟩ := Storage.Get_ok st "id" id b.NewGraph hok
      rw [hT] at h1 h2
      refine ⟨row, hrow, h1, h2, ?_⟩
      rw [← hT]
      exact (Storage.Get_new st "id" id b).2

end Facette.backend

namespace Facette.backend

open maputil

/-- Counterexample to C17 as stated: the instance of the example, a linked graph, is
resolved and then expanded; `Expand` finds the template in `Link` and looks nothing
up. -/
theorem Graph.Expand_one_lookup_refuted :
    Graph.Resolve Sample.store Sample.linked = ⟨Sample.resolved, none, ["t"]⟩ ∧
    Graph.Expand Sample.store Sample.resolved none =
      .returned ⟨Sample.expanded, none, []⟩ ∧
    ¬ ∀ (st : Storage) (g g' : Graph) (attrs : Option Map) (err : Option Error)
        (l : List String),
      g.linked = true → g.expanded = false →
      Graph.Expand st g attrs = .returned ⟨g', err, l⟩ → l.length = 1 := by
  refine ⟨rfl, rfl, ?_⟩
  intro h
  have h1 := h Sample.store Sample.resolved Sample.expanded none none [] rfl rfl rfl
  revert h1
  decide

/-- Witness of C17, amended: the instance of the example over a template that is itself
linked to `base`.  The one lookup is that of `t`; the receiver ends with the link
identifier `base` and no `Link`. -/
theorem Graph.Expand_one_level_witness :
    Graph.Expand Sample.chainStore Sample.linked none =
      .returned ⟨Sample.chained, none, ["t"]⟩ ∧
    Sample.chained.LinkID = some "base" ∧ Sample.chained.Link = none ∧
    (["t"] = if Sample.linked.resolved then [] else ["t"]) ∧
    ∃ T, (Graph.Resolve Sample.chainStore Sample.linked).g.Link = some T ∧
      Sample.chained.LinkID = T.LinkID ∧ Sample.chained.Link = T.Link :=
  have hw := Graph.Expand_one_level Sample.chainStore Sample.linked Sample.chained none none
    ["t"] Sample.b "t" rfl rfl rfl (by decide) rfl
  ⟨rfl, rfl, rfl, hw.1, (hw.2 rfl).imp fun _ hT => ⟨hT.1, hT.2.1, hT.2.2.1⟩⟩

/-- Witness of C18: a graph with a back-end and an empty link identifier. -/
theorem Graph.Resolve_without_link_witness :
    Graph.Resolve Sample.store Sample.aliased =
      ⟨{ Sample.aliased with resolved := true }, none, []⟩ :=
  Graph.Resolve_without_link Sample.store Sample.aliased Sample.b rfl rfl rfl

end Facette.backend


namespace Facette.backend

open maputil

/-- Claim C7, amended.  On a graph that is not yet expanded, whose link target, when
the graph is already resolved and holds one, is not marked expanded either, a returned
`Expand` leaves `expanded` true exactly when it returned success.  When the resolution
of the link fails, `Expand` returns that error.  Otherwise the link stage leaves the
graph `s0`, which is the graph itself with the merged attributes when it has no link to
follow and the template overlaid with the instance when it has one, and `Expand`
returns the error of the first substitution on `s0` that fails, the title first, then
the texts of the series in order, and no error when none fails. -/
theorem Graph.Expand_mark_iff_success (st : Storage) (g g' : Graph) (attrs : Option Map)
    (err : Option Error) (l : List String) (he : g.expanded = false)
    (hlink : g.resolved = true → ∀ t, g.Link = some t → t.expanded = false)
    (h : Graph.Expand st g attrs = .returned ⟨g', err, l⟩) :
    (g'.expanded = true ↔ err = none) ∧
    (∀ e, g.linked = true → (Graph.Resolve st g).err = some e → err = some e) ∧
    ((∃ e, g.linked = true ∧ (Graph.Resolve st g).err = some e ∧ err = some e) ∨
     ∃ s0, err = s0.firstError ∧ g'.Attributes = s0.Attributes ∧
      (g.linked = false → s0 = { g with Attributes := g.mergeAttrs attrs }) ∧
      (g.linked = true → (Graph.Resolve st g).err = none ∧
        ∃ T, (Graph.Resolve st g).g.Link = some T ∧
          s0 = { T with ID := g.ID,
                        Attributes := Map.Merge T.Attributes (g.mergeAttrs attrs) true,
                        Options := Map.Merge T.Options g.Options true,
                        Template := false })) := by
  obtain ⟨a, ha, hcase⟩ := Graph.Expand_returned_inv st g g' attrs err l he h
  subst ha
  have hres := Graph.Resolve_attributes st g (g.mergeAttrs attrs)
  obtain ⟨lk, rs, hfr⟩ := Graph.Resolve_frame st g
  refine ⟨?_, ?_, ?_⟩
  · rcases hcase with ⟨e, hl, herr⟩ | ⟨g1, hl, hg, herr⟩
    · have := Graph.applyLink_expanded st { g with Attributes := g.mergeAttrs attrs } g'
        (some e) l he hlink hl
      simp [this, herr]
    · have h1 := Graph.applyLink_expanded st { g with Attributes := g.mergeAttrs attrs } g1
        none l he hlink hl
      rw [hg, herr]
      exact Graph.substitute_expanded_iff g1 h1
  · intro e hl hr
    have h2 := Graph.applyLink_resolve_error st { g with Attributes := g.mergeAttrs attrs } e hl
      (by rw [hres]; exact hr)
    rcases hcase with ⟨e1, hl1, herr⟩ | ⟨g1, hl1, hg, herr⟩
    · rw [h2] at hl1
      injection hl1 with hl1
      injection hl1 with _ h3 _
      rw [herr, ← h3]
    · rw [h2] at hl1
      injection hl1 with hl1
      injection hl1 with _ h3 _
      cases h3
  · rcases hcase with ⟨e, hl1, herr⟩ | ⟨g1, hl1, hg, herr⟩
    · left
      obtain ⟨hlk, hre⟩ := Graph.applyLink_error_inv st _ g' e l hl1
      rw [hres] at hre
      exact ⟨e, hlk, hre, herr⟩
    · right
      refine ⟨g1, by rw [herr, Graph.substitute_err], by rw [hg, Graph.substitute_attributes],
        ?_, ?_⟩
      · intro hnl
        have hnl' : ({ g with Attributes := g.mergeAttrs attrs } : Graph).linked = false := hnl
        rw [Graph.applyLink_not_linked st _ hnl'] at hl1
        injection hl1 with hl1
        injection hl1 with h1 _ _
        exact h1.symm
      · intro hlk
        have hlk' : ({ g with Attributes := g.mergeAttrs attrs } : Graph).linked = true := hlk
        obtain ⟨T, a2, o2, hok, hT, ha2, ho2, hg1, _⟩ :=
          Graph.applyLink_linked_ok st _ g1 l hlk' hl1
        rw [hres] at hok hT
        simp only at hok hT ha2 ho2 hg1
        subst ha2 ho2
        exact ⟨hok, T, hT, hg1⟩

/-- Counterexample to C7 as stated: the instance of the example, with a title that
names the absent attribute `zone`, is resolved; the template that it then holds in
`Link` is expanded on its own; `Expand` on the instance, which is not yet expanded,
copies the expanded template over the receiver, fails on the title and returns the
error with `expanded` true. -/
theorem Graph.Expand_mark_refuted :
    Graph.Resolve Sample.ownStore Sample.zoned = ⟨Sample.zonedResolved, none, ["t"]⟩ ∧
    Graph.Expand Sample.ownStore Sample.ownTemplate none =
      .returned ⟨Sample.ownExpanded, none, []⟩ ∧
    Sample.zonedHeld = { Sample.zonedResolved with Link := some Sample.ownExpanded } ∧
    Graph.Expand Sample.ownStore Sample.zonedHeld none =
      .returned ⟨Sample.zonedFailed, some (Error.UnresolvedAttribute "zone"), []⟩ ∧
    ¬ ∀ (st : Storage) (g g' : Graph) (attrs : Option Map) (err : Option Error)
        (l : List String),
      g.expanded = false → Graph.Expand st g attrs = .returned ⟨g', err, l⟩ →
      (g'.expanded = true ↔ err = none) := by
  refine ⟨rfl, rfl, rfl, rfl, ?_⟩
  intro h
  have h1 := h Sample.ownStore Sample.zonedHeld Sample.zonedFailed none
    (some (Error.UnresolvedAttribute "zone")) [] rfl rfl
  revert h1
  decide

/-- Witness of C7, amended: the graph whose series names an absent attribute fails to
expand and is not marked; the error is that of the first substitution that fails on the
graph itself. -/
theorem Graph.Expand_mark_iff_success_witness :
    Graph.Expand Sample.store Sample.unbound none =
      .returned ⟨Sample.unboundFailed, some (Error.UnresolvedAttribute "x"), []⟩ ∧
    (Sample.unboundFailed.expanded = true ↔ some (Error.UnresolvedAttribute "x") = none) ∧
    Sample.unbound.firstError = some (Error.UnresolvedAttribute "x") :=
  ⟨rfl, (Graph.Expand_mark_iff_success Sample.store Sample.unbound Sample.unboundFailed none
    (some (Error.UnresolvedAttribute "x")) [] rfl (fun h => nomatch h) rfl).1, rfl⟩

end Facette.backend
